import Mathlib

/-!
Verification of the dclab core against its specification.

The development shallowly embeds the relevant parts of the source tree:

* `src/dclab/rtdc_dataset/config.py` — the typed key-value configuration
  store (`keyval_str2typ`, `keyval_typ2str`, `Configuration._fix_config`,
  `Configuration.update`);
* `src/dclab/rtdc_dataset/fmt_hierarchy.py` — the hierarchical dataset
  variant (`RTDC_Hierarchy`);
* `src/dclab/rtdc_dataset/write_hdf5.py` — the container writer (`write`,
  `store_scalar`, `store_contour`, `store_image`, `store_trace`).

Modelling conventions:

* Python strings are `String`; all string manipulation is routed through
  explicit `List Char` helpers so that proofs can proceed by induction.
  Only ASCII behaviour of `str.lower`/`str.strip` is modelled.
* Python floats are modelled as exact rationals (`ℚ`); IEEE special values
  (`inf`, `nan` produced by `float("nan")`-style parsing, signed zero) and
  digit-group underscores accepted by `float()` are outside the model.
  `numpy.nan` as a configuration value is modelled by an explicit
  constructor `CVal.nanV` because `_fix_config` branches on it.
* Mutation is modelled by explicit state passing.  A Python function that
  can raise returns `Except PyErr _`; when mutations happen before the
  raise, the function returns the post-mutation state together with the
  outcome (`State × Except PyErr _`), matching Python semantics where a
  raised exception leaves earlier mutations in place.
* Code of this repository that is not under `src/` (`core.py`,
  `definitions.py`, `config_default.cfg`, `_version.py`) is modelled from
  the spec; every such definition carries a doc comment starting with
  `Modelled from the spec:`.
-/

/-! ## Characters and strings -/

/-- ASCII whitespace characters, as stripped by Python's `str.strip()`. -/
def isWs (c : Char) : Bool :=
  c = ' ' || c = '\t' || c = '\n' || c = '\r' || c = '\x0b' || c = '\x0c'

/-- Decimal digit test (`'0'` to `'9'`). -/
def isDig (c : Char) : Bool :=
  48 ≤ c.toNat && c.toNat ≤ 57

/-- ASCII lower-casing of a single character, as done by Python `str.lower`
on ASCII input (codes 65-90 map to 97-122). -/
def lowerChar (c : Char) : Char :=
  if 65 ≤ c.toNat ∧ c.toNat ≤ 90 then Char.ofNat (c.toNat + 32) else c

/-- Python `str.lower()` (ASCII fragment). -/
def lowerStr (s : String) : String :=
  ⟨s.data.map lowerChar⟩

/-- Strip characters satisfying `p` from both ends of a character list
(the semantics of Python `str.strip(chars)`). -/
def stripBy (p : Char → Bool) (cs : List Char) : List Char :=
  ((cs.dropWhile p).reverse.dropWhile p).reverse

/-- Python `str.strip()` (whitespace from both ends). -/
def stripStr (s : String) : String :=
  ⟨stripBy isWs s.data⟩

/-- Does the string start with the single character `c`
(Python `s.startswith(c)` / `s[0] == c` on nonempty `s`)? -/
def headIs (c : Char) (s : String) : Bool :=
  match s.data with
  | [] => false
  | d :: _ => d = c

/-- Does the string end with the single character `c`? -/
def lastIs (c : Char) (s : String) : Bool :=
  match s.data.getLast? with
  | none => false
  | some d => d = c

/-- Python `val.replace(",", ".")` (single-character pattern, hence a
character-wise map). -/
def replaceCommaDot (s : String) : String :=
  ⟨s.data.map (fun c => if c = ',' then '.' else c)⟩

/-- Split a character list at every comma, the semantics of Python
`s.split(",")`. -/
def splitComma : List Char → List (List Char)
  | [] => [[]]
  | c :: cs =>
    match splitComma cs with
    | [] => [[]]
    | p :: ps => if c = ',' then [] :: p :: ps else (c :: p) :: ps

/-! ### Basic lemmas about the string helpers -/

theorem dropWhile_eq_self_of_all {p : Char → Bool} :
    ∀ {cs : List Char}, (∀ c ∈ cs, p c = false) → cs.dropWhile p = cs
  | [], _ => rfl
  | c :: cs, h => by
    have hc : p c = false := h c (List.mem_cons_self c cs)
    simp [List.dropWhile, hc]

theorem stripBy_eq_self {p : Char → Bool} {cs : List Char}
    (h : ∀ c ∈ cs, p c = false) : stripBy p cs = cs := by
  unfold stripBy
  rw [dropWhile_eq_self_of_all h, dropWhile_eq_self_of_all, List.reverse_reverse]
  intro c hc
  exact h c (List.mem_reverse.1 hc)

theorem stripBy_cons_of_head {p : Char → Bool} {c : Char} {cs : List Char}
    (h : p c = true) : stripBy p (c :: cs) = stripBy p cs := by
  unfold stripBy
  rw [List.dropWhile_cons_of_pos h]

theorem lowerStr_data (s : String) : (lowerStr s).data = s.data.map lowerChar := rfl

theorem string_eq_iff_data {s t : String} : s = t ↔ s.data = t.data := by
  constructor
  · intro h; rw [h]
  · intro h; cases s; cases t; exact congrArg String.mk h

/-! ## Decimal digits, `float()` parsing and `"{:.12f}"` formatting -/

/-- The character for a single decimal digit value. -/
def digChar (d : Nat) : Char :=
  match d with
  | 0 => '0' | 1 => '1' | 2 => '2' | 3 => '3' | 4 => '4'
  | 5 => '5' | 6 => '6' | 7 => '7' | 8 => '8' | _ => '9'

/-- The numeric value of a decimal digit character. -/
def charVal (c : Char) : Nat := c.toNat - 48

/-- Big-endian value of a list of decimal digit characters. -/
def digsVal (cs : List Char) : Nat :=
  cs.foldl (fun a c => 10 * a + charVal c) 0

/-- Decimal digit characters of a natural number, most significant first
(`fuel` bounds the recursion). -/
def natCharsAux : Nat → Nat → List Char
  | 0, _ => []
  | fuel + 1, n => if n = 0 then [] else natCharsAux fuel (n / 10) ++ [digChar (n % 10)]

/-- Decimal representation of a natural number, as Python prints it. -/
def natChars (n : Nat) : List Char :=
  if n = 0 then ['0'] else natCharsAux (n + 1) n

/-- Decimal string of a natural number. -/
def natStr (n : Nat) : String := ⟨natChars n⟩

/-- Decimal string of an integer, as Python `"{}".format` prints it. -/
def intChars (n : ℤ) : List Char :=
  if n < 0 then '-' :: natChars (-n).toNat else natChars n.toNat

theorem charVal_digChar {d : Nat} (h : d < 10) : charVal (digChar d) = d := by
  interval_cases d <;> rfl

theorem isDig_digChar {d : Nat} (h : d < 10) : isDig (digChar d) = true := by
  interval_cases d <;> rfl

theorem digsVal_append_one (cs : List Char) (c : Char) :
    digsVal (cs ++ [c]) = 10 * digsVal cs + charVal c := by
  unfold digsVal
  rw [List.foldl_append]
  rfl

theorem natCharsAux_spec :
    ∀ (fuel n : Nat), n < 10 ^ fuel →
      digsVal (natCharsAux fuel n) = n ∧ ∀ c ∈ natCharsAux fuel n, isDig c = true := by
  intro fuel
  induction fuel with
  | zero =>
    intro n hn
    simp at hn
    subst hn
    exact ⟨rfl, by intro c hc; simp [natCharsAux] at hc⟩
  | succ fuel ih =>
    intro n hn
    by_cases h0 : n = 0
    · subst h0
      exact ⟨rfl, by intro c hc; simp [natCharsAux] at hc⟩
    · have hdiv : n / 10 < 10 ^ fuel := Nat.div_lt_of_lt_mul (by rw [pow_succ] at hn; omega)
      obtain ⟨ihv, ihd⟩ := ih (n / 10) hdiv
      constructor
      · simp only [natCharsAux, h0, if_false]
        rw [digsVal_append_one, ihv, charVal_digChar (Nat.mod_lt _ (by norm_num))]
        exact Nat.div_add_mod n 10
      · simp only [natCharsAux, h0, if_false]
        intro c hc
        rcases List.mem_append.1 hc with h | h
        · exact ihd c h
        · simp at h
          subst h
          exact isDig_digChar (Nat.mod_lt _ (by norm_num))

theorem ten_pow_gt (n : Nat) : n < 10 ^ (n + 1) :=
  lt_of_lt_of_le (Nat.lt_pow_self (by norm_num) n)
    (Nat.pow_le_pow_right (by norm_num) (Nat.le_succ n))

theorem digsVal_natChars (n : Nat) : digsVal (natChars n) = n := by
  unfold natChars
  by_cases h0 : n = 0
  · simp [h0]; rfl
  · simp only [h0, if_false]
    exact (natCharsAux_spec (n + 1) n (ten_pow_gt n)).1

theorem isDig_of_mem_natChars {n : Nat} {c : Char} (h : c ∈ natChars n) :
    isDig c = true := by
  unfold natChars at h
  by_cases h0 : n = 0
  · simp [h0] at h
    subst h; rfl
  · simp only [h0, if_false] at h
    exact (natCharsAux_spec (n + 1) n (ten_pow_gt n)).2 c h

theorem natChars_ne_nil (n : Nat) : natChars n ≠ [] := by
  unfold natChars
  by_cases h0 : n = 0
  · simp [h0]
  · simp only [h0, if_false]
    unfold natCharsAux
    simp [h0]

theorem natCharsAux_length :
    ∀ (fuel n k : Nat), n < 10 ^ k → (natCharsAux fuel n).length ≤ k := by
  intro fuel
  induction fuel with
  | zero => intro n k _; simp [natCharsAux]
  | succ fuel ih =>
    intro n k hn
    by_cases h0 : n = 0
    · simp [natCharsAux, h0]
    · have hk : k ≠ 0 := by
        rintro rfl
        simp at hn
        exact h0 hn
      obtain ⟨k', rfl⟩ := Nat.exists_eq_succ_of_ne_zero hk
      have hdiv : n / 10 < 10 ^ k' := Nat.div_lt_of_lt_mul (by rw [pow_succ] at hn; omega)
      simp only [natCharsAux, h0, if_false, List.length_append, List.length_singleton]
      have := ih (n / 10) k' hdiv
      omega

theorem natChars_length_le {n k : Nat} (hk : 1 ≤ k) (hn : n < 10 ^ k) :
    (natChars n).length ≤ k := by
  unfold natChars
  by_cases h0 : n = 0
  · simpa [h0] using hk
  · simp only [h0, if_false]
    exact natCharsAux_length (n + 1) n k hn

/-- Split a character list at the first character satisfying `p`:
returns the part before it and, when found, the part after it. -/
def splitAtFirst (p : Char → Bool) : List Char → List Char × Option (List Char)
  | [] => ([], none)
  | c :: cs =>
    if p c then ([], some cs)
    else
      match splitAtFirst p cs with
      | (a, r) => (c :: a, r)

/-- Consume an optional leading sign; returns whether the value is negated
and the remaining characters. -/
def parseSign : List Char → Bool × List Char
  | [] => (false, [])
  | c :: rest =>
    if c = '+' then (false, rest)
    else if c = '-' then (true, rest)
    else (false, c :: rest)

/-- Parse the mantissa part of a Python float literal:
`digits`, `digits.digits`, `digits.` or `.digits`. -/
def parseMant (cs : List Char) : Option ℚ :=
  match splitAtFirst (fun c => c = '.') cs with
  | (ip, fpo) =>
    let fp := fpo.getD []
    if ip.all isDig && fp.all isDig && !(ip.isEmpty && fp.isEmpty) then
      some ((digsVal ip : ℚ) + (digsVal fp : ℚ) / (10 : ℚ) ^ fp.length)
    else
      none

/-- Parse the exponent part after `e`/`E`: optional sign, nonempty digits. -/
def parseExp (cs : List Char) : Option ℤ :=
  match parseSign cs with
  | (n, ds) =>
    if !ds.isEmpty && ds.all isDig then
      some (if n then -(digsVal ds : ℤ) else (digsVal ds : ℤ))
    else
      none

/-- Core of `float()` on a stripped character list. -/
def pyFloatCore (cs : List Char) : Option ℚ :=
  match parseSign cs with
  | (neg, cs) =>
    match splitAtFirst (fun c => c = 'e' || c = 'E') cs with
    | (m, eo) =>
      match parseMant m with
      | none => none
      | some q =>
        let q := if neg then -q else q
        match eo with
        | none => some q
        | some ecs =>
          match parseExp ecs with
          | none => none
          | some e => some (q * (10 : ℚ) ^ e)

/-- Python `float(s)` on decimal literals, with the float value idealised as
an exact rational.  `inf`/`infinity`/`nan` literals and digit-group
underscores are outside this model, and are rejected. -/
def pyFloat? (s : String) : Option ℚ :=
  pyFloatCore (stripBy isWs s.data)

/-- The integer nearest to `q` (rounding used for the 12-decimal fixed
format; the exact tie-breaking rule of IEEE printing is immaterial for the
round-trip claims). -/
def rnd (q : ℚ) : ℤ := ⌊q + 1 / 2⌋

/-- Scaled-by-`10^12` rounding of a nonnegative rational, as a natural. -/
def rnd12 (q : ℚ) : ℕ := (rnd (q * 10 ^ 12)).toNat

/-- Digit characters of `n`, left-padded with `'0'` to width `w`. -/
def padZeros (w : Nat) (n : Nat) : List Char :=
  List.replicate (w - (natChars n).length) '0' ++ natChars n

/-- Fixed 12-decimal rendering of a nonnegative scaled value
`n = round(|q| * 10^12)`. -/
def fmtFixed12Abs (n : Nat) : List Char :=
  natChars (n / 10 ^ 12) ++ '.' :: padZeros 12 (n % 10 ^ 12)

/-- Python `"{:.12f}".format(q)`: sign of the value followed by the fixed
12-decimal rendering of its magnitude. -/
def fmt12 (q : ℚ) : String :=
  if q < 0 then ⟨'-' :: fmtFixed12Abs (rnd12 (-q))⟩ else ⟨fmtFixed12Abs (rnd12 q)⟩

/-- The value denoted by the 12-decimal rendering of `q`: `q` rounded to 12
decimal places.  This is the precision loss the specification grants. -/
def round12 (q : ℚ) : ℚ :=
  if q < 0 then -((rnd12 (-q) : ℚ) / 10 ^ 12) else (rnd12 q : ℚ) / 10 ^ 12

/-! ### Character-set facts about the fixed 12-decimal rendering -/

/-- Characters that can occur in a `fmt12` rendering. -/
def fmtChar (c : Char) : Bool := isDig c || c = '.' || c = '-'

theorem ne_of_toNat_ne {c d : Char} (h : c.toNat ≠ d.toNat) : c ≠ d :=
  fun he => h (congrArg Char.toNat he)

theorem isDig_toNat {c : Char} (h : isDig c = true) :
    48 ≤ c.toNat ∧ c.toNat ≤ 57 := by
  unfold isDig at h
  rw [Bool.and_eq_true, decide_eq_true_eq, decide_eq_true_eq] at h
  exact h

theorem fmtChar_toNat {c : Char} (h : fmtChar c = true) :
    (48 ≤ c.toNat ∧ c.toNat ≤ 57) ∨ c.toNat = 46 ∨ c.toNat = 45 := by
  unfold fmtChar at h
  rw [Bool.or_eq_true, Bool.or_eq_true] at h
  rcases h with (h | h) | h
  · exact Or.inl (isDig_toNat h)
  · rw [decide_eq_true_eq] at h; exact Or.inr (Or.inl (by rw [h]; rfl))
  · rw [decide_eq_true_eq] at h; exact Or.inr (Or.inr (by rw [h]; rfl))

theorem fmtChar_not_ws {c : Char} (h : fmtChar c = true) : isWs c = false := by
  have hb := fmtChar_toNat h
  unfold isWs
  simp only [Bool.or_eq_false_iff, decide_eq_false_iff_not]
  refine ⟨⟨⟨⟨⟨?_, ?_⟩, ?_⟩, ?_⟩, ?_⟩, ?_⟩ <;>
    · intro he
      subst he
      revert hb
      decide

theorem fmtChar_ne {c : Char} (h : fmtChar c = true) {d : Char}
    (hd : d.toNat < 45 ∨ (57 < d.toNat ∧ d.toNat ≠ 46 ∧ d.toNat ≠ 45) ∨ d.toNat = 47) :
    c ≠ d := by
  intro he
  subst he
  rcases fmtChar_toNat h with h1 | h1 | h1 <;> omega

theorem isDig_mem_padZeros {w n : Nat} {c : Char} (h : c ∈ padZeros w n) :
    isDig c = true := by
  unfold padZeros at h
  rcases List.mem_append.1 h with h | h
  · rw [List.eq_of_mem_replicate h]; rfl
  · exact isDig_of_mem_natChars h

theorem fmtChar_mem_fmtFixed12Abs {n : Nat} {c : Char} (h : c ∈ fmtFixed12Abs n) :
    fmtChar c = true := by
  unfold fmtFixed12Abs at h
  unfold fmtChar
  rcases List.mem_append.1 h with h | h
  · rw [isDig_of_mem_natChars h]; rfl
  · rcases List.mem_cons.1 h with h | h
    · subst h; rfl
    · rw [isDig_mem_padZeros h]; rfl

theorem fmtChar_mem_fmt12 {q : ℚ} {c : Char} (h : c ∈ (fmt12 q).data) :
    fmtChar c = true := by
  unfold fmt12 at h
  by_cases hq : q < 0
  · simp only [hq, if_true] at h
    rcases List.mem_cons.1 h with h | h
    · subst h; rfl
    · exact fmtChar_mem_fmtFixed12Abs h
  · simp only [hq, if_false] at h
    exact fmtChar_mem_fmtFixed12Abs h

/-! ### Parsing back the fixed 12-decimal rendering -/

theorem splitAtFirst_of_all_neg {p : Char → Bool} :
    ∀ {cs : List Char}, (∀ c ∈ cs, p c = false) → splitAtFirst p cs = (cs, none)
  | [], _ => rfl
  | c :: cs, h => by
    have hc : p c = false := h c (List.mem_cons_self c cs)
    have ih := @splitAtFirst_of_all_neg p cs (fun d hd => h d (List.mem_cons_of_mem c hd))
    simp [splitAtFirst, hc, ih]

theorem splitAtFirst_append {p : Char → Bool} {b : Char} {r : List Char}
    (hb : p b = true) :
    ∀ {a : List Char}, (∀ c ∈ a, p c = false) → splitAtFirst p (a ++ b :: r) = (a, some r)
  | [], _ => by simp [splitAtFirst, hb]
  | c :: a, h => by
    have hc : p c = false := h c (List.mem_cons_self c a)
    have ih := @splitAtFirst_append p b r hb a (fun d hd => h d (List.mem_cons_of_mem c hd))
    simp [splitAtFirst, hc, ih]

theorem digsVal_replicate_zero (k : Nat) (cs : List Char) :
    digsVal (List.replicate k '0' ++ cs) = digsVal cs := by
  induction k with
  | zero => rfl
  | succ k ih =>
    have : List.replicate (k + 1) '0' ++ cs = '0' :: (List.replicate k '0' ++ cs) := by
      simp [List.replicate_succ]
    rw [this]
    unfold digsVal at *
    simpa using ih

theorem digsVal_padZeros (w n : Nat) : digsVal (padZeros w n) = n := by
  unfold padZeros
  rw [digsVal_replicate_zero, digsVal_natChars]

theorem padZeros_length {n : Nat} (h : n < 10 ^ 12) : (padZeros 12 n).length = 12 := by
  unfold padZeros
  have := natChars_length_le (n := n) (k := 12) (by norm_num) h
  simp [List.length_append, List.length_replicate]
  omega

theorem parseMant_fmtFixed12Abs (n : Nat) :
    parseMant (fmtFixed12Abs n) = some ((n : ℚ) / 10 ^ 12) := by
  unfold parseMant fmtFixed12Abs
  have hsplit := splitAtFirst_append (p := fun c => decide (c = '.')) (b := '.')
    (r := padZeros 12 (n % 10 ^ 12)) (by simp) (a := natChars (n / 10 ^ 12))
    (fun c hc => by
      have := isDig_toNat (isDig_of_mem_natChars hc)
      simp only [decide_eq_false_iff_not]
      have h46 : ('.').toNat = 46 := rfl
      exact ne_of_toNat_ne (by omega))
  rw [hsplit]
  have hip : (natChars (n / 10 ^ 12)).all isDig = true :=
    List.all_eq_true.2 (fun c hc => isDig_of_mem_natChars hc)
  have hfp : (padZeros 12 (n % 10 ^ 12)).all isDig = true :=
    List.all_eq_true.2 (fun c hc => isDig_mem_padZeros hc)
  have hne : (natChars (n / 10 ^ 12)).isEmpty = false := by
    cases hcs : natChars (n / 10 ^ 12) with
    | nil => exact absurd hcs (natChars_ne_nil _)
    | cons c cs => rfl
  simp only [Option.getD_some, hip, hfp, hne, Bool.false_and, Bool.not_false,
    Bool.and_true, Bool.true_and, if_true]
  rw [digsVal_natChars, digsVal_padZeros, padZeros_length (Nat.mod_lt _ (by positivity))]
  have hdm : ((10 : ℚ) ^ 12) * ((n / 10 ^ 12 : ℕ) : ℚ) + ((n % 10 ^ 12 : ℕ) : ℚ) = (n : ℚ) := by
    have h := Nat.div_add_mod n (10 ^ 12)
    push_cast
    exact_mod_cast congrArg (fun m : ℕ => (m : ℚ)) h
  have hpow : ((10 : ℚ) ^ 12) ≠ 0 := by positivity
  congr 1
  field_simp
  linarith [hdm]

theorem eE_false_of_fmtFixed {n : Nat} :
    ∀ c ∈ fmtFixed12Abs n, (decide (c = 'e') || decide (c = 'E')) = false := by
  intro c hc
  have h := fmtChar_toNat (fmtChar_mem_fmtFixed12Abs hc)
  have he : ('e').toNat = 101 := rfl
  have hE : ('E').toNat = 69 := rfl
  simp only [Bool.or_eq_false_iff, decide_eq_false_iff_not]
  exact ⟨ne_of_toNat_ne (by omega), ne_of_toNat_ne (by omega)⟩

theorem fmtFixed12Abs_cons (n : Nat) :
    ∃ c cs, fmtFixed12Abs n = c :: cs ∧ isDig c = true := by
  obtain ⟨c, cs, hcons⟩ : ∃ c cs, natChars (n / 10 ^ 12) = c :: cs := by
    cases hcs : natChars (n / 10 ^ 12) with
    | nil => exact absurd hcs (natChars_ne_nil _)
    | cons c cs => exact ⟨c, cs, rfl⟩
  refine ⟨c, cs ++ '.' :: padZeros 12 (n % 10 ^ 12), ?_, ?_⟩
  · unfold fmtFixed12Abs
    rw [hcons]
    rfl
  · exact isDig_of_mem_natChars (by rw [hcons]; exact List.mem_cons_self c cs)

theorem parseSign_digit {c : Char} (hc : isDig c = true) (cs : List Char) :
    parseSign (c :: cs) = (false, c :: cs) := by
  have hb := isDig_toNat hc
  have hp : ('+').toNat = 43 := rfl
  have hm : ('-').toNat = 45 := rfl
  simp only [parseSign]
  rw [if_neg (ne_of_toNat_ne (by omega)), if_neg (ne_of_toNat_ne (by omega))]

theorem pyFloatCore_fmtFixed12Abs (n : Nat) :
    pyFloatCore (fmtFixed12Abs n) = some ((n : ℚ) / 10 ^ 12) := by
  obtain ⟨c, cs, hbody, hdig⟩ := fmtFixed12Abs_cons n
  have hsplitE := @splitAtFirst_of_all_neg
    (fun c => decide (c = 'e') || decide (c = 'E')) (fmtFixed12Abs n) eE_false_of_fmtFixed
  have hmant := parseMant_fmtFixed12Abs n
  unfold pyFloatCore
  rw [hbody] at hsplitE hmant ⊢
  rw [parseSign_digit hdig]
  simp only [hsplitE, hmant]
  simp

theorem pyFloatCore_neg_fmtFixed12Abs (n : Nat) :
    pyFloatCore ('-' :: fmtFixed12Abs n) = some (-((n : ℚ) / 10 ^ 12)) := by
  have hsplitE := @splitAtFirst_of_all_neg
    (fun c => decide (c = 'e') || decide (c = 'E')) (fmtFixed12Abs n) eE_false_of_fmtFixed
  have hmant := parseMant_fmtFixed12Abs n
  unfold pyFloatCore
  have hps : parseSign ('-' :: fmtFixed12Abs n) = (true, fmtFixed12Abs n) := by
    simp [parseSign]
  rw [hps]
  simp only [hsplitE, hmant]
  simp

/-- Parsing the 12-decimal rendering of `q` with `float()` recovers exactly
`q` rounded to 12 decimal places. -/
theorem pyFloat_fmt12 (q : ℚ) : pyFloat? (fmt12 q) = some (round12 q) := by
  unfold pyFloat?
  have hstrip : stripBy isWs (fmt12 q).data = (fmt12 q).data :=
    stripBy_eq_self (fun c hc => fmtChar_not_ws (fmtChar_mem_fmt12 hc))
  rw [hstrip]
  unfold fmt12 round12
  by_cases hq : q < 0
  · simp only [hq, if_true]
    exact pyFloatCore_neg_fmtFixed12Abs (rnd12 (-q))
  · simp only [hq, if_false]
    exact pyFloatCore_fmtFixed12Abs (rnd12 q)

/-! ## Configuration values and `keyval_str2typ` / `keyval_typ2str`
(src/dclab/rtdc_dataset/config.py) -/

/-- Runtime types a configuration value can have: Python `bool`, `float`
(exact-rational model), `int`, `numpy.nan`, `str`, and list of floats. -/
inductive CVal where
  | b (x : Bool)
  | f (q : ℚ)
  | i (n : ℤ)
  | nanV
  | s (x : String)
  | fl (qs : List ℚ)
deriving DecidableEq, Repr

/-- Python `", ".join` on character lists. -/
def joinCommaSpace : List (List Char) → List Char
  | [] => []
  | [x] => x
  | x :: xs => x ++ ',' :: ' ' :: joinCommaSpace xs

/-- Characters stripped by `val.strip("[],")`. -/
def isBrk (c : Char) : Bool := c = '[' || c = ']' || c = ','

/-- The list comprehension `[float(v) for v in values]`: all parts must
parse, a failing part raises (modelled as `none`). -/
def parseFloatList : List (List Char) → Option (List ℚ)
  | [] => some []
  | p :: ps =>
    match pyFloat? ⟨p⟩, parseFloatList ps with
    | some q, some qs => some (q :: qs)
    | _, _ => none

/-- Translation of `keyval_str2typ` (config.py lines 240-297), restricted to
string-valued `val`: the source's early pass-through for already-typed
values cannot arise here because every input of the model is a string.
The result `none` covers both the source's fall-through `None` return
(empty `var` or `val` after stripping) and an uncaught `ValueError` raised
by `float` inside the list branch.  `uid` is the list
`dclab.definitions.uid` of known feature identifiers. -/
def keyval_str2typ (uid : List String) (var val : String) : Option (String × CVal) :=
  let var := lowerStr (stripStr var)
  let val := stripStr val
  if var.data.isEmpty || val.data.isEmpty then none
  else if headIs '[' val && lastIs ']' val then
    let inner := stripBy isBrk val.data
    if inner.isEmpty then some (var, .fl [])
    else
      match parseFloatList (splitComma inner) with
      | some qs => some (var, .fl qs)
      | none => none
  else if lowerStr val = "true" || lowerStr val = "y" then some (var, .b true)
  else if lowerStr val = "false" || lowerStr val = "n" then some (var, .b false)
  else if (headIs '\'' val || headIs '"' val) && (lastIs '\'' val || lastIs '"' val) then
    some (var, .s (stripStr ⟨stripBy (fun c => c = '"') (stripBy (fun c => c = '\'') val.data)⟩))
  else if uid.contains val then some (var, .s val)
  else
    match pyFloat? (replaceCommaDot val) with
    | some q => some (var, .f q)
    | none => some (var, .s val)

/-- Value rendering of `keyval_typ2str` (config.py lines 299-329).  The
source's recursive call in the list branch only ever reaches the float
branch, because a `CVal.fl` value is a list of floats; it is therefore
rendered directly with `fmt12`.  `"{:.12f}"` applied to `numpy.nan` prints
`"nan"`. -/
def cvalStr : CVal → String
  | .fl qs => ⟨'[' :: joinCommaSpace (qs.map (fun q => (fmt12 q).data)) ++ [']']⟩
  | .f q => fmt12 q
  | .nanV => "nan"
  | .b x => if x then "True" else "False"
  | .i n => ⟨intChars n⟩
  | .s x => x

/-- Translation of `keyval_typ2str` (config.py lines 299-329). -/
def keyval_typ2str (var : String) (val : CVal) : String × String :=
  (lowerStr (stripStr var), cvalStr val)

/-! ### Interaction of lower-casing, stripping and the parser guards -/

theorem toNat_lowerChar (c : Char) :
    (lowerChar c).toNat = if 65 ≤ c.toNat ∧ c.toNat ≤ 90 then c.toNat + 32 else c.toNat := by
  unfold lowerChar
  by_cases h : 65 ≤ c.toNat ∧ c.toNat ≤ 90
  · rw [if_pos h, if_pos h]
    unfold Char.ofNat
    rw [dif_pos (Or.inl (by omega))]
    rfl
  · rw [if_neg h, if_neg h]

theorem isWs_false_of_ge {c : Char} (h : 33 ≤ c.toNat) : isWs c = false := by
  unfold isWs
  simp only [Bool.or_eq_false_iff, decide_eq_false_iff_not]
  refine ⟨⟨⟨⟨⟨?_, ?_⟩, ?_⟩, ?_⟩, ?_⟩, ?_⟩ <;>
    · intro he
      rw [he] at h
      revert h
      decide

theorem lowerChar_eq_self {c : Char} (h : ¬(65 ≤ c.toNat ∧ c.toNat ≤ 90)) :
    lowerChar c = c := by
  unfold lowerChar
  rw [if_neg h]

theorem lowerChar_idem (c : Char) : lowerChar (lowerChar c) = lowerChar c := by
  by_cases h : 65 ≤ c.toNat ∧ c.toNat ≤ 90
  · have ht : (lowerChar c).toNat = c.toNat + 32 := by rw [toNat_lowerChar, if_pos h]
    exact lowerChar_eq_self (by omega)
  · rw [lowerChar_eq_self h, lowerChar_eq_self h]

theorem isWs_lowerChar (c : Char) : isWs (lowerChar c) = isWs c := by
  by_cases h : 65 ≤ c.toNat ∧ c.toNat ≤ 90
  · have ht : (lowerChar c).toNat = c.toNat + 32 := by rw [toNat_lowerChar, if_pos h]
    rw [isWs_false_of_ge (by omega), isWs_false_of_ge (by omega)]
  · rw [lowerChar_eq_self h]

theorem dropWhile_map_comm {f : Char → Char} {p : Char → Bool}
    (hf : ∀ c, p (f c) = p c) :
    ∀ (cs : List Char), (cs.map f).dropWhile p = (cs.dropWhile p).map f
  | [] => rfl
  | c :: cs => by
    by_cases hc : p c
    · simp [List.dropWhile_cons, hf, hc, dropWhile_map_comm hf cs]
    · simp [List.dropWhile_cons, hf, hc]

theorem stripBy_map_comm {f : Char → Char} {p : Char → Bool}
    (hf : ∀ c, p (f c) = p c) (cs : List Char) :
    stripBy p (cs.map f) = (stripBy p cs).map f := by
  unfold stripBy
  rw [dropWhile_map_comm hf, ← List.map_reverse, dropWhile_map_comm hf, List.map_reverse]

/-- Stripping commutes with lower-casing. -/
theorem stripStr_lowerStr (s : String) :
    stripStr (lowerStr s) = lowerStr (stripStr s) := by
  unfold stripStr lowerStr
  exact congrArg String.mk (stripBy_map_comm isWs_lowerChar s.data)

theorem lowerStr_idem (s : String) : lowerStr (lowerStr s) = lowerStr s := by
  unfold lowerStr
  refine congrArg String.mk ?_
  rw [List.map_map]
  exact List.map_congr_left (fun c _ => lowerChar_idem c)

theorem head?_dropWhile_false (p : Char → Bool) :
    ∀ (l : List Char) {c : Char}, (l.dropWhile p).head? = some c → p c = false
  | [], c => by simp
  | d :: l, c => by
    by_cases hd : p d
    · rw [List.dropWhile_cons_of_pos hd]
      exact head?_dropWhile_false p l
    · rw [List.dropWhile_cons_of_neg hd]
      intro h
      rw [List.head?_cons, Option.some_inj] at h
      subst h
      exact Bool.eq_false_iff.2 hd

theorem dropWhile_eq_self_of_head? {p : Char → Bool} {l : List Char}
    (h : ∀ c, l.head? = some c → p c = false) : l.dropWhile p = l := by
  cases l with
  | nil => rfl
  | cons c cs => exact List.dropWhile_cons_of_neg (by simp [h c rfl])

theorem getLast?_dropWhile_of_orig {p : Char → Bool} {l : List Char} {c : Char}
    (h : (l.dropWhile p).getLast? = some c) : l.getLast? = some c := by
  obtain ⟨t, ht⟩ := List.dropWhile_suffix (l := l) p
  rw [← ht, List.getLast?_append_of_ne_nil]
  · exact h
  · intro hnil
    rw [hnil] at h
    simp at h

theorem stripBy_idem (p : Char → Bool) (cs : List Char) :
    stripBy p (stripBy p cs) = stripBy p cs := by
  have hhead : ∀ c, (stripBy p cs).head? = some c → p c = false := by
    intro c hc
    unfold stripBy at hc
    rw [List.head?_reverse] at hc
    have := getLast?_dropWhile_of_orig hc
    rw [List.getLast?_reverse] at this
    exact head?_dropWhile_false p _ this
  have hlast : ∀ c, (stripBy p cs).getLast? = some c → p c = false := by
    intro c hc
    unfold stripBy at hc
    rw [List.getLast?_reverse] at hc
    exact head?_dropWhile_false p _ hc
  show (((stripBy p cs).dropWhile p).reverse.dropWhile p).reverse = stripBy p cs
  rw [dropWhile_eq_self_of_head? hhead, dropWhile_eq_self_of_head?, List.reverse_reverse]
  intro c hc
  rw [List.head?_reverse] at hc
  exact hlast c hc

theorem stripStr_idem (s : String) : stripStr (stripStr s) = stripStr s :=
  congrArg String.mk (stripBy_idem isWs s.data)

/-! ### Guard evaluation on serialized values -/

theorem stripBy_eq_self_of_ends {p : Char → Bool} {l : List Char}
    (hh : ∀ c, l.head? = some c → p c = false)
    (hl : ∀ c, l.getLast? = some c → p c = false) : stripBy p l = l := by
  show ((l.dropWhile p).reverse.dropWhile p).reverse = l
  rw [dropWhile_eq_self_of_head? hh, dropWhile_eq_self_of_head?, List.reverse_reverse]
  intro c hc
  rw [List.head?_reverse] at hc
  exact hl c hc

theorem fmt12_ne_nil (q : ℚ) : (fmt12 q).data ≠ [] := by
  unfold fmt12
  by_cases hq : q < 0
  · simp [hq]
  · simp only [hq, if_false]
    obtain ⟨c, cs, hbody, _⟩ := fmtFixed12Abs_cons (rnd12 q)
    show fmtFixed12Abs (rnd12 q) ≠ []
    rw [hbody]
    simp

theorem fmt12_head (q : ℚ) :
    ∃ c cs, (fmt12 q).data = c :: cs ∧ 45 ≤ c.toNat ∧ c.toNat ≤ 57 := by
  unfold fmt12
  by_cases hq : q < 0
  · obtain ⟨c, cs, hbody, _⟩ := fmtFixed12Abs_cons (rnd12 (-q))
    exact ⟨'-', fmtFixed12Abs (rnd12 (-q)), by simp [hq], by decide⟩
  · obtain ⟨c, cs, hbody, hdig⟩ := fmtFixed12Abs_cons (rnd12 q)
    have hb := isDig_toNat hdig
    exact ⟨c, cs, by simp [hq]; exact hbody, by omega⟩

theorem stripStr_fmt12 (q : ℚ) : stripStr (fmt12 q) = fmt12 q := by
  unfold stripStr
  rw [string_eq_iff_data]
  exact stripBy_eq_self (fun c hc => fmtChar_not_ws (fmtChar_mem_fmt12 hc))

theorem headIs_false_of_head {x : Char} {s : String} {c : Char} {cs : List Char}
    (hdata : s.data = c :: cs) (hne : c ≠ x) : headIs x s = false := by
  unfold headIs
  rw [hdata]
  simp [hne]

theorem lowerStr_fmt12_ne {q : ℚ} {t : String} {d : Char} {ds : List Char}
    (htd : t.data = d :: ds) (hd : 97 ≤ d.toNat) : lowerStr (fmt12 q) ≠ t := by
  obtain ⟨c, cs, hdata, hc1, hc2⟩ := fmt12_head q
  intro he
  rw [string_eq_iff_data, lowerStr_data, hdata, htd, List.map_cons, List.cons_eq_cons] at he
  have hlc : lowerChar c = c := lowerChar_eq_self (by omega)
  rw [hlc] at he
  have := congrArg Char.toNat he.1
  omega

theorem replaceCommaDot_fmt12 (q : ℚ) : replaceCommaDot (fmt12 q) = fmt12 q := by
  rw [string_eq_iff_data]
  show (fmt12 q).data.map _ = (fmt12 q).data
  rw [List.map_congr_left, List.map_id]
  intro c hc
  have h := fmtChar_toNat (fmtChar_mem_fmt12 hc)
  have hne : c ≠ ',' := by
    intro he
    rw [he] at h
    revert h
    decide
  simp [hne]

theorem contains_eq_false_of_not_mem {l : List String} {a : String} (h : a ∉ l) :
    l.contains a = false := by
  simp [List.contains, List.elem_eq_mem, h]

theorem str2typ_fmt12 (uid : List String) (w : String)
    (hw : w.data.isEmpty = false) (hsw : stripStr w = w) (hlw : lowerStr w = w)
    (huid : ∀ u ∈ uid, pyFloat? u = none) (q : ℚ) :
    keyval_str2typ uid w (fmt12 q) = some (w, .f (round12 q)) := by
  obtain ⟨c, cs, hdata, hc1, hc2⟩ := fmt12_head q
  have hone : (fmt12 q).data.isEmpty = false := by rw [hdata]; rfl
  have hbrk : headIs '[' (fmt12 q) = false :=
    headIs_false_of_head hdata (ne_of_toNat_ne (by have : ('[').toNat = 91 := rfl; omega))
  have hq1 : headIs '\'' (fmt12 q) = false :=
    headIs_false_of_head hdata (ne_of_toNat_ne (by have : ('\'').toNat = 39 := rfl; omega))
  have hq2 : headIs '"' (fmt12 q) = false :=
    headIs_false_of_head hdata (ne_of_toNat_ne (by have : ('"').toNat = 34 := rfl; omega))
  have ht : lowerStr (fmt12 q) ≠ "true" := lowerStr_fmt12_ne rfl (by decide)
  have hy : lowerStr (fmt12 q) ≠ "y" := lowerStr_fmt12_ne rfl (by decide)
  have hf : lowerStr (fmt12 q) ≠ "false" := lowerStr_fmt12_ne rfl (by decide)
  have hn : lowerStr (fmt12 q) ≠ "n" := lowerStr_fmt12_ne rfl (by decide)
  have hmem : (fmt12 q) ∉ uid := by
    intro hm
    have := huid _ hm
    rw [pyFloat_fmt12 q] at this
    exact Option.noConfusion this
  have hcont : uid.contains (fmt12 q) = false := contains_eq_false_of_not_mem hmem
  unfold keyval_str2typ
  simp only [hsw, hlw, stripStr_fmt12, hw, hone, hbrk, hq1, hq2, hcont,
    decide_eq_false ht, decide_eq_false hy, decide_eq_false hf, decide_eq_false hn,
    Bool.or_self, Bool.or_false, Bool.false_or, Bool.false_and, Bool.and_false,
    Bool.and_self, if_false, Bool.false_eq_true, ite_false]
  rw [replaceCommaDot_fmt12, pyFloat_fmt12]

/-! ### Parsing back serialized float lists -/

theorem head?_append_left {l r : List Char} (h : l ≠ []) :
    (l ++ r).head? = l.head? := by
  cases l with
  | nil => exact absurd rfl h
  | cons a t => rfl

theorem splitComma_ne_nil : ∀ (l : List Char), splitComma l ≠ []
  | [] => by simp [splitComma]
  | c :: cs => by
    have := splitComma_ne_nil cs
    unfold splitComma
    cases hs : splitComma cs with
    | nil => simp
    | cons p ps =>
      by_cases hc : c = ','
      · simp [hc]
      · simp [hc]

theorem splitComma_no_comma :
    ∀ {l : List Char}, (∀ c ∈ l, c ≠ ',') → splitComma l = [l]
  | [], _ => rfl
  | c :: cs, h => by
    have ih := splitComma_no_comma (fun d hd => h d (List.mem_cons_of_mem c hd))
    have hc : c ≠ ',' := h c (List.mem_cons_self c cs)
    unfold splitComma
    rw [ih]
    simp [hc]

theorem splitComma_append {a : List Char} (ha : ∀ c ∈ a, c ≠ ',') (r : List Char) :
    splitComma (a ++ ',' :: r) = a :: splitComma r := by
  induction a with
  | nil =>
    simp only [List.nil_append]
    cases hs : splitComma r with
    | nil => exact absurd hs (splitComma_ne_nil r)
    | cons p ps =>
      conv_lhs => rw [splitComma]
      rw [hs]
      simp
  | cons c a ih =>
    have hc : c ≠ ',' := ha c (List.mem_cons_self c a)
    have ih2 := ih (fun d hd => ha d (List.mem_cons_of_mem c hd))
    simp only [List.cons_append]
    conv_lhs => rw [splitComma]
    rw [ih2]
    simp [hc]

theorem fmt12_no_comma {q : ℚ} : ∀ c ∈ (fmt12 q).data, c ≠ ',' := by
  intro c hc
  have h := fmtChar_toNat (fmtChar_mem_fmt12 hc)
  exact ne_of_toNat_ne (by have : (',').toNat = 44 := rfl; omega)

theorem mk_data (s : String) : (⟨s.data⟩ : String) = s := rfl

theorem parseFloatList_space (p : List Char) (ps : List (List Char)) :
    parseFloatList ((' ' :: p) :: ps) = parseFloatList (p :: ps) := by
  unfold parseFloatList pyFloat?
  rw [show (⟨' ' :: p⟩ : String).data = ' ' :: p from rfl]
  rw [show (⟨p⟩ : String).data = p from rfl]
  rw [stripBy_cons_of_head (by rfl)]

/-- The serialized items of a float list parse back to the rounded values. -/
theorem parseFloatList_join :
    ∀ (q : ℚ) (rest : List ℚ),
      parseFloatList
        (splitComma (joinCommaSpace ((q :: rest).map (fun x => (fmt12 x).data)))) =
      some ((q :: rest).map round12)
  | q, [] => by
    simp only [List.map_cons, List.map_nil, joinCommaSpace]
    rw [splitComma_no_comma fmt12_no_comma]
    unfold parseFloatList
    rw [mk_data, pyFloat_fmt12]
    rfl
  | q, q' :: rest => by
    have ih := parseFloatList_join q' rest
    simp only [List.map_cons] at ih ⊢
    have hjcs : joinCommaSpace ((fmt12 q).data :: (fmt12 q').data ::
        (rest.map (fun x => (fmt12 x).data))) =
        (fmt12 q).data ++ ',' :: ' ' ::
          joinCommaSpace ((fmt12 q').data :: (rest.map (fun x => (fmt12 x).data))) := rfl
    rw [hjcs, splitComma_append fmt12_no_comma]
    cases hs : splitComma (joinCommaSpace ((fmt12 q').data :: (rest.map (fun x => (fmt12 x).data)))) with
    | nil => exact absurd hs (splitComma_ne_nil _)
    | cons p ps =>
      have hsp : splitComma (' ' :: joinCommaSpace ((fmt12 q').data ::
          (rest.map (fun x => (fmt12 x).data)))) = (' ' :: p) :: ps := by
        unfold splitComma
        rw [hs]
        simp
      rw [hsp]
      rw [hs] at ih
      have h2 : parseFloatList ((' ' :: p) :: ps) =
          some (round12 q' :: rest.map round12) := by
        rw [parseFloatList_space]
        simpa using ih
      conv_lhs => rw [parseFloatList]
      rw [mk_data, pyFloat_fmt12, h2]

theorem getLast?_some_of_ne_nil {l : List Char} (h : l ≠ []) :
    ∃ c, l.getLast? = some c ∧ c ∈ l := by
  cases hr : l.reverse with
  | nil => exact absurd (List.reverse_eq_nil_iff.1 hr) h
  | cons c t =>
    refine ⟨c, ?_, ?_⟩
    · rw [← List.head?_reverse, hr]
      rfl
    · rw [← List.mem_reverse, hr]
      exact List.mem_cons_self c t

theorem isBrk_false_of_fmtChar {c : Char} (h : fmtChar c = true) : isBrk c = false := by
  have hb := fmtChar_toNat h
  unfold isBrk
  simp only [Bool.or_eq_false_iff, decide_eq_false_iff_not]
  refine ⟨⟨?_, ?_⟩, ?_⟩ <;>
    · intro he
      rw [he] at hb
      revert hb
      decide

theorem jcs_head (q : ℚ) (rest : List ℚ) :
    ∃ c, (joinCommaSpace ((q :: rest).map (fun x => (fmt12 x).data))).head? = some c ∧
      fmtChar c = true := by
  obtain ⟨c, cs, hdata, h1, h2⟩ := fmt12_head q
  have hfc : fmtChar c = true :=
    fmtChar_mem_fmt12 (by rw [hdata]; exact List.mem_cons_self c cs)
  cases rest with
  | nil =>
    refine ⟨c, ?_, hfc⟩
    show ((fmt12 q).data).head? = some c
    rw [hdata]
    rfl
  | cons q' r =>
    refine ⟨c, ?_, hfc⟩
    show ((fmt12 q).data ++ ',' :: ' ' ::
      joinCommaSpace ((q' :: r).map (fun x => (fmt12 x).data))).head? = some c
    rw [head?_append_left (by rw [hdata]; simp), hdata]
    rfl

theorem jcs_last :
    ∀ (q : ℚ) (rest : List ℚ),
      ∃ c, (joinCommaSpace ((q :: rest).map (fun x => (fmt12 x).data))).getLast? = some c ∧
        fmtChar c = true
  | q, [] => by
    obtain ⟨c, hc, hmem⟩ := getLast?_some_of_ne_nil (fmt12_ne_nil q)
    exact ⟨c, hc, fmtChar_mem_fmt12 hmem⟩
  | q, q' :: r => by
    obtain ⟨c, hc, hfc⟩ := jcs_last q' r
    refine ⟨c, ?_, hfc⟩
    show ((fmt12 q).data ++ ',' :: ' ' ::
      joinCommaSpace ((q' :: r).map (fun x => (fmt12 x).data))).getLast? = some c
    have hne : joinCommaSpace ((q' :: r).map (fun x => (fmt12 x).data)) ≠ [] := by
      intro he
      rw [he] at hc
      exact Option.noConfusion hc
    have hsh : (fmt12 q).data ++ ',' :: ' ' ::
        joinCommaSpace ((q' :: r).map (fun x => (fmt12 x).data)) =
        ((fmt12 q).data ++ [',', ' ']) ++
          joinCommaSpace ((q' :: r).map (fun x => (fmt12 x).data)) := by
      simp
    rw [hsh, List.getLast?_append_of_ne_nil _ hne]
    exact hc

theorem stripBy_wrap {p : Char → Bool} {l : List Char}
    (hopen : p '[' = true) (hclose : p ']' = true)
    (hh : ∀ c, l.head? = some c → p c = false)
    (hl : ∀ c, l.getLast? = some c → p c = false) :
    stripBy p ('[' :: (l ++ [']'])) = l := by
  rw [stripBy_cons_of_head hopen]
  show (((l ++ [']']).dropWhile p).reverse.dropWhile p).reverse = l
  cases hl0 : l with
  | nil => simp [hclose, List.dropWhile, stripBy]
  | cons a t =>
    rw [← hl0]
    have hhead : (l ++ [']']).head? = l.head? := head?_append_left (by rw [hl0]; simp)
    rw [dropWhile_eq_self_of_head? (fun c hc => hh c (hhead ▸ hc))]
    have hrev : (l ++ [']']).reverse = ']' :: l.reverse := by simp
    rw [hrev, List.dropWhile_cons_of_pos hclose,
      dropWhile_eq_self_of_head? (fun c hc => hl c (by rwa [List.head?_reverse] at hc)),
      List.reverse_reverse]

theorem str2typ_fllist (uid : List String) (w : String)
    (hw : w.data.isEmpty = false) (hsw : stripStr w = w) (hlw : lowerStr w = w)
    (qs : List ℚ) :
    keyval_str2typ uid w (cvalStr (.fl qs)) = some (w, .fl (qs.map round12)) := by
  cases qs with
  | nil =>
    unfold keyval_str2typ cvalStr
    simp only [hsw, hlw, hw]
    rfl
  | cons q rest =>
    obtain ⟨ch, hch, hfch⟩ := jcs_head q rest
    obtain ⟨cl, hcl, hfcl⟩ := jcs_last q rest
    set J := joinCommaSpace ((q :: rest).map (fun x => (fmt12 x).data)) with hJ
    have hJne : J ≠ [] := by
      intro he
      rw [he] at hch
      exact Option.noConfusion hch
    have hval : (cvalStr (.fl (q :: rest))).data = '[' :: (J ++ [']']) := rfl
    have hstrip : stripStr (cvalStr (.fl (q :: rest))) = cvalStr (.fl (q :: rest)) := by
      unfold stripStr
      rw [string_eq_iff_data]
      show stripBy isWs (cvalStr (.fl (q :: rest))).data = _
      rw [hval]
      apply stripBy_eq_self_of_ends
      · intro c hc
        rw [List.head?_cons, Option.some_inj] at hc
        subst hc
        exact isWs_false_of_ge (by decide)
      · intro c hc
        have : ('[' :: (J ++ [']'])) = ('[' :: J) ++ [']'] := by simp
        rw [this, List.getLast?_concat] at hc
        rw [Option.some_inj] at hc
        subst hc
        exact isWs_false_of_ge (by decide)
    have hemp : (cvalStr (.fl (q :: rest))).data.isEmpty = false := by rw [hval]; rfl
    have hhead : headIs '[' (cvalStr (.fl (q :: rest))) = true := by
      unfold headIs
      rw [hval]
      simp
    have hlast : lastIs ']' (cvalStr (.fl (q :: rest))) = true := by
      unfold lastIs
      rw [hval]
      have : ('[' :: (J ++ [']'])) = ('[' :: J) ++ [']'] := by simp
      rw [this, List.getLast?_concat]
      simp
    have hinner : stripBy isBrk (cvalStr (.fl (q :: rest))).data = J := by
      rw [hval]
      exact stripBy_wrap rfl rfl
        (fun c hc => isBrk_false_of_fmtChar (by rw [hch] at hc; cases hc; exact hfch))
        (fun c hc => isBrk_false_of_fmtChar (by rw [hcl] at hc; cases hc; exact hfcl))
    have hinner_ne : J.isEmpty = false := by
      cases hJ0 : J with
      | nil => exact absurd hJ0 hJne
      | cons a t => rfl
    unfold keyval_str2typ
    simp only [hsw, hlw, hstrip, hw, hemp, hhead, hlast, Bool.and_self, if_true,
      Bool.false_or, hinner, hinner_ne, if_false, Bool.true_and]
    rw [if_neg (by simp [hinner_ne])]
    rw [parseFloatList_join q rest]
    simp

theorem str2typ_boolstr (uid : List String) (w : String)
    (hw : w.data.isEmpty = false) (hsw : stripStr w = w) (hlw : lowerStr w = w)
    (x : Bool) :
    keyval_str2typ uid w (cvalStr (.b x)) = some (w, .b x) := by
  cases x <;>
    · unfold keyval_str2typ cvalStr
      simp only [hsw, hlw, hw]
      rfl

/-- Conditions under which a string value survives the round trip: the
serialized form must be nonempty, already stripped, not shaped like a
list, a boolean or a quoted value, and must either be a known identifier
or fail to parse as a float. -/
def strRoundtripCond (uid : List String) (x : String) : Prop :=
  x.data.isEmpty = false ∧ stripStr x = x ∧
  (headIs '[' x && lastIs ']' x) = false ∧
  lowerStr x ≠ "true" ∧ lowerStr x ≠ "y" ∧ lowerStr x ≠ "false" ∧ lowerStr x ≠ "n" ∧
  ((headIs '\'' x || headIs '"' x) && (lastIs '\'' x || lastIs '"' x)) = false ∧
  (x ∈ uid ∨ pyFloat? (replaceCommaDot x) = none)

theorem str2typ_strval (uid : List String) (w : String)
    (hw : w.data.isEmpty = false) (hsw : stripStr w = w) (hlw : lowerStr w = w)
    (x : String) (hc : strRoundtripCond uid x) :
    keyval_str2typ uid w x = some (w, .s x) := by
  obtain ⟨hxe, hxs, hbr, hnt, hny, hnf, hnn, hq, hfl⟩ := hc
  unfold keyval_str2typ
  simp only [hsw, hlw, hxs, hw, hxe, hbr, hq, decide_eq_false hnt, decide_eq_false hny,
    decide_eq_false hnf, decide_eq_false hnn, Bool.or_self, Bool.false_or, Bool.or_false,
    if_false, Bool.false_eq_true, ite_false]
  by_cases hm : x ∈ uid
  · rw [if_pos (by simpa [List.contains, List.elem_eq_mem] using hm)]
  · rw [if_neg (by simp [List.contains, List.elem_eq_mem, hm]), hfl.resolve_left hm]

theorem parse_var_facts {uid : List String} {var val w : String} {v : CVal}
    (h : keyval_str2typ uid var val = some (w, v)) :
    w = lowerStr (stripStr var) ∧ w.data.isEmpty = false ∧
      stripStr w = w ∧ lowerStr w = w := by
  have hshape : w = lowerStr (stripStr var) ∧
      (lowerStr (stripStr var)).data.isEmpty = false := by
    simp only [keyval_str2typ] at h
    split at h
    · exact Option.noConfusion h
    · rename_i hcond
      have hvare : (lowerStr (stripStr var)).data.isEmpty = false := by
        rcases Bool.or_eq_false_iff.1 (Bool.eq_false_iff.mpr hcond) with ⟨h1, _⟩
        exact h1
      refine ⟨?_, hvare⟩
      split at h
      · split at h
        · rw [Option.some_inj] at h
          exact congrArg Prod.fst h.symm
        · split at h
          · rw [Option.some_inj] at h
            exact congrArg Prod.fst h.symm
          · exact Option.noConfusion h
      · split at h
        · rw [Option.some_inj] at h
          exact congrArg Prod.fst h.symm
        · split at h
          · rw [Option.some_inj] at h
            exact congrArg Prod.fst h.symm
          · split at h
            · rw [Option.some_inj] at h
              exact congrArg Prod.fst h.symm
            · split at h
              · rw [Option.some_inj] at h
                exact congrArg Prod.fst h.symm
              · split at h
                · rw [Option.some_inj] at h
                  exact congrArg Prod.fst h.symm
                · rw [Option.some_inj] at h
                  exact congrArg Prod.fst h.symm
  obtain ⟨hw, he⟩ := hshape
  subst hw
  refine ⟨rfl, he, ?_, lowerStr_idem _⟩
  rw [stripStr_lowerStr, stripStr_idem]

/-! ## Claim C4 -/

/-- C4 (counterexample): the claim "serializing the parsed value back to a
string yields the normalized form of s" fails at `s = "'true'"`: the parsed
value is the string `"true"`, whose serialization `"true"` re-parses as the
boolean `True`, not as the string value again.  The serialization is
therefore not a normal form of `s` (it is not even stable under one more
parse-serialize pass, which maps `"true"` to `"True"`), and no precision
allowance for floats is involved. -/
theorem C4_keyval_roundtrip_counterexample :
    keyval_str2typ [] "k" "'true'" = some ("k", CVal.s "true") ∧
    (keyval_typ2str "k" (CVal.s "true")).2 = "true" ∧
    keyval_str2typ [] "k" "true" = some ("k", CVal.b true) ∧
    (keyval_typ2str "k" (CVal.b true)).2 = "True" ∧
    CVal.b true ≠ CVal.s "true" := by
  exact ⟨by decide, rfl, by decide, rfl, by decide⟩

/-- C4 (amended): for every string that `keyval_str2typ` parses to a
boolean, float or list-of-floats value, serializing with `keyval_typ2str`
and re-parsing yields the same value with float payloads rounded to twelve
decimal places (the precision granted by the claim), provided no known
identifier in `uid` is itself a float literal; for string values the round
trip holds under `strRoundtripCond`, i.e. exactly when the serialized
string does not re-parse as a value of a different shape (the situation in
the counterexample). -/
theorem C4_keyval_roundtrip_amended (uid : List String) (var val w : String) (v : CVal)
    (hparse : keyval_str2typ uid var val = some (w, v))
    (huid : ∀ u ∈ uid, pyFloat? u = none) :
    (∀ x, v = .b x →
      keyval_str2typ uid (keyval_typ2str w v).1 (keyval_typ2str w v).2 = some (w, .b x)) ∧
    (∀ q, v = .f q →
      keyval_str2typ uid (keyval_typ2str w v).1 (keyval_typ2str w v).2 =
        some (w, .f (round12 q))) ∧
    (∀ qs, v = .fl qs →
      keyval_str2typ uid (keyval_typ2str w v).1 (keyval_typ2str w v).2 =
        some (w, .fl (qs.map round12))) ∧
    (∀ x, v = .s x → strRoundtripCond uid x →
      keyval_str2typ uid (keyval_typ2str w v).1 (keyval_typ2str w v).2 = some (w, .s x)) := by
  obtain ⟨hwdef, hwe, hws, hwl⟩ := parse_var_facts hparse
  have hfst : (keyval_typ2str w v).1 = w := by
    show lowerStr (stripStr w) = w
    rw [hws, hwl]
  have hsnd : (keyval_typ2str w v).2 = cvalStr v := rfl
  refine ⟨?_, ?_, ?_, ?_⟩
  · intro x hx
    subst hx
    rw [hfst, hsnd]
    exact str2typ_boolstr uid w hwe hws hwl x
  · intro q hq
    subst hq
    rw [hfst, hsnd]
    exact str2typ_fmt12 uid w hwe hws hwl huid q
  · intro qs hqs
    subst hqs
    rw [hfst, hsnd]
    exact str2typ_fllist uid w hwe hws hwl qs
  · intro x hx hcond
    subst hx
    rw [hfst, hsnd]
    exact str2typ_strval uid w hwe hws hwl x hcond

/-- C4 (witness): the amended round trip at the concrete input `"y"`,
which parses to the boolean `True` and survives the round trip. -/
theorem C4_keyval_roundtrip_witness :
    keyval_str2typ [] "k" "y" = some ("k", CVal.b true) ∧
    keyval_str2typ [] (keyval_typ2str "k" (CVal.b true)).1
      (keyval_typ2str "k" (CVal.b true)).2 = some ("k", CVal.b true) := by
  have h1 : keyval_str2typ [] "k" "y" = some ("k", CVal.b true) := by decide
  exact ⟨h1,
    (C4_keyval_roundtrip_amended [] "k" "y" "k" (CVal.b true) h1
      (fun u hu => absurd hu (List.not_mem_nil u))).1 true rfl⟩

/-! ## Python exceptions shared by the remaining components -/

/-- The Python exception kinds raised by the modelled code. -/
inductive PyErr where
  | keyError (k : String)
  | notImplementedError (msg : String)
  | valueError (msg : String)
  | typeError (msg : String)
  | assertionError (msg : String)
deriving DecidableEq, Repr

/-! ## Hierarchical datasets (src/dclab/rtdc_dataset/fmt_hierarchy.py) -/

/-- A Python value held in a dataset's `_events` mapping: either a 1-D
`numpy.ndarray` (element dtype abstracted to `ℤ`) or any non-array value
(abstracted to a tag, since `fmt_hierarchy` only tests
`isinstance(value, np.ndarray)` on it). -/
inductive PyVal where
  | arr (xs : List Int)
  | nonarr (tag : String)
deriving DecidableEq, Repr

/-- Association-list lookup with plain string keys (Python `dict` access;
keys are unique in every state built here). -/
def assocGet {α : Type} : List (String × α) → String → Option α
  | [], _ => none
  | (k, v) :: r, key => if k = key then some v else assocGet r key

/-- Association-list update: replace in place when the key exists, append
otherwise (Python `dict` assignment, insertion order preserved). -/
def assocSet {α : Type} : List (String × α) → String → α → List (String × α)
  | [], key, v => [(key, v)]
  | (k, w) :: r, key, v =>
    if k = key then (k, v) :: r else (k, w) :: assocSet r key v

/-- Association-list deletion (Python `del d[key]`). -/
def assocDel {α : Type} : List (String × α) → String → List (String × α)
  | [], _ => []
  | (k, w) :: r, key => if k = key then assocDel r key else (k, w) :: assocDel r key

/-- Boolean mask of a 1-D array, `xs[filt]` in numpy (the claims only use
masks of matching length). -/
def maskArr (xs : List Int) (filt : List Bool) : List Int :=
  (xs.zip filt).filterMap (fun p => if p.2 then some p.1 else none)

/-- Number of `True` entries of a boolean array (`np.sum(filt)`). -/
def countTrue (filt : List Bool) : Nat := filt.countP id

/-- Number of `False` entries of a boolean array
(`np.sum(1 - filt)` on a boolean array). -/
def countFalse (filt : List Bool) : Nat := filt.countP (fun b => !b)

/-- The hierarchy parent: a dataset with an `_events` mapping and a
resolved boolean `_filter` array. -/
structure Parent where
  events : List (String × PyVal)
  filter : List Bool
deriving DecidableEq, Repr

/-- Modelled from the spec: `RTDCBase.apply_filter` (core.py, which is not
under src/) resolves the dataset's own filter from its filtering
configuration through the shared filtering routine (spec §4.3 step 1,
§6).  In this model the parent's `_filter` field is taken as already
resolved, so resolving it again is the identity. -/
def Parent.applyFilter (p : Parent) : Parent := p

/-- Modelled from the spec: `RTDCBase.__contains__` (core.py, not under
src/) — membership in the dataset's `_events` mapping. -/
def Parent.containsKey (p : Parent) (k : String) : Bool :=
  (assocGet p.events k).isSome

/-- Modelled from the spec: `RTDCBase.__getitem__` (core.py, not under
src/) — lookup in the dataset's `_events` mapping, `KeyError` when the
feature is missing. -/
def Parent.getItem (p : Parent) (k : String) : Except PyErr PyVal :=
  match assocGet p.events k with
  | some v => .ok v
  | none => .error (.keyError k)

/-- The hierarchy child (`RTDC_Hierarchy`): back-reference to the parent,
local `_events` override cache, its own `_filter` state and the optional
`_filter_manual` override.  The configuration copy made by `__init__`
(stripping min/max and polygon settings, recording the parent identifier)
is not modelled because no claim refers to it. -/
structure Child where
  hparent : Parent
  events : List (String × PyVal)
  filter : List Bool
  filter_manual : Option (List Bool)
deriving DecidableEq, Repr

/-- `RTDC_Hierarchy.__contains__` (fmt_hierarchy.py lines 69-75): true only
when the parent holds the key and its value is an ndarray. -/
def Child.containsKey (c : Child) (k : String) : Bool :=
  match assocGet c.hparent.events k with
  | some (.arr _) => true
  | _ => false

/-- `RTDC_Hierarchy.__getitem__` (fmt_hierarchy.py lines 78-87): local
cache first, else the parent's value masked by the parent's current
filter; a parent value that is not an ndarray raises
`NotImplementedError`, a missing key propagates the parent's `KeyError`. -/
def Child.getItem (c : Child) (k : String) : Except PyErr PyVal :=
  match assocGet c.events k with
  | some v => .ok v
  | none =>
    match Parent.getItem c.hparent k with
    | .error e => .error e
    | .ok (.arr xs) => .ok (.arr (maskArr xs c.hparent.filter))
    | .ok (.nonarr _) => .error (.notImplementedError ("Hierarchy does not implement " ++ k))

/-- `RTDC_Hierarchy.__len__` (fmt_hierarchy.py lines 90-92): re-resolve the
parent's filter, then count its `True` entries. -/
def Child.lengthEvents (c : Child) : Nat :=
  countTrue (Parent.applyFilter c.hparent).filter

/-- `np.arange(1, length + 1)`: the 1-based index feature. -/
def arange1 (n : Nat) : List Int :=
  (List.range n).map (fun i => (i : Int) + 1)

/-- `RTDC_Hierarchy.apply_filter` (fmt_hierarchy.py lines 95-112), with
Python exception semantics made explicit: the function returns the state
after execution together with the outcome, because the `index` update and
the filter-state reset happen before the `_filter_manual` check can
raise.  `self._init_filters()` and the final
`super().apply_filter(*args, **kwargs)` are code of core.py, which is not
under src/; they are modelled from the spec: step (4) resets the locally
cached derived filter state to the all-inclusive filter of the current
length (leaving the prior manual override readable by step (5)), and the
delegation to the shared filtering routine returns a boolean array of the
dataset's length, which excludes nothing on a child whose min/max and
polygon settings were stripped at construction. -/
def Child.applyFilter (c : Child) : Child × Except PyErr Unit :=
  let p := Parent.applyFilter c.hparent
  let length := countTrue p.filter
  let c1 : Child :=
    { c with hparent := p,
             events := assocSet c.events "index" (.arr (arange1 length)),
             filter := List.replicate length true }
  match c1.filter_manual with
  | some fm =>
    if countFalse fm ≠ 0 then
      (c1, .error (.notImplementedError "filter_manual not supported in hierarchy!"))
    else
      (c1, .ok ())
  | none => (c1, .ok ())

/-- `RTDC_Hierarchy.__init__` (fmt_hierarchy.py lines 14-66), restricted to
the modelled state: fresh empty event cache, no `_filter_manual`
attribute yet, then `apply_filter` is invoked at the end of
construction. -/
def Child.construct (p : Parent) : Child × Except PyErr Unit :=
  Child.applyFilter { hparent := p, events := [], filter := [], filter_manual := none }

theorem assocGet_set_self {α : Type} (l : List (String × α)) (k : String) (v : α) :
    assocGet (assocSet l k v) k = some v := by
  induction l with
  | nil => simp [assocSet, assocGet]
  | cons p r ih =>
    obtain ⟨pk, pv⟩ := p
    by_cases hp : pk = k
    · simp [assocSet, assocGet, hp]
    · simp only [assocSet, if_neg hp, assocGet]
      exact ih

theorem assocGet_set_ne {α : Type} (l : List (String × α)) (k k' : String) (v : α)
    (h : k' ≠ k) : assocGet (assocSet l k v) k' = assocGet l k' := by
  have h' : k ≠ k' := fun he => h he.symm
  induction l with
  | nil => simp [assocSet, assocGet, h']
  | cons p r ih =>
    obtain ⟨pk, pv⟩ := p
    by_cases hp : pk = k
    · subst hp
      simp only [assocSet, if_pos rfl, assocGet]
      rw [if_neg h', if_neg h']
    · simp only [assocSet, if_neg hp, assocGet]
      by_cases hp' : pk = k'
      · rw [if_pos hp', if_pos hp']
      · rw [if_neg hp', if_neg hp']
        exact ih

/-! ## Claim C1 -/

/-- C1 (counterexample): the claim "the not-implemented error is raised
before any mutating side effect occurs; the child's existing event cache
(including its 'index' feature) is unchanged" is false.  On a child whose
parent filter now selects a single event while the cached `index` still
has three entries, `apply_filter` with a manual filter that excludes an
entry does raise the error, but only after `self._events["index"]` has
been overwritten (fmt_hierarchy.py lines 100-110: the index update at line
102 precedes the check at lines 107-110). -/
theorem C1_manual_filter_counterexample :
    (Child.applyFilter
        ⟨⟨[("area", PyVal.arr [5, 6, 7])], [true, false, false]⟩,
         [("index", PyVal.arr [1, 2, 3])], [true, true, true], some [false]⟩).2 =
      .error (.notImplementedError "filter_manual not supported in hierarchy!") ∧
    assocGet (Child.applyFilter
        ⟨⟨[("area", PyVal.arr [5, 6, 7])], [true, false, false]⟩,
         [("index", PyVal.arr [1, 2, 3])], [true, true, true], some [false]⟩).1.events
        "index" = some (PyVal.arr [1]) ∧
    assocGet
        ([("index", PyVal.arr [1, 2, 3])] : List (String × PyVal)) "index" =
      some (PyVal.arr [1, 2, 3]) ∧
    PyVal.arr [1] ≠ PyVal.arr [1, 2, 3] := by
  exact ⟨rfl, rfl, rfl, by decide⟩

/-- C1 (amended): on every hierarchical child carrying a manual per-event
filter with at least one excluded entry, `apply_filter` raises the
not-implemented error; before the error is raised the `index` feature has
already been recomputed from the parent's current filter and the child's
own filter state has been reset, while every other entry of the event
cache is unchanged. -/
theorem C1_manual_filter_amended (c : Child) (fm : List Bool)
    (hfm : c.filter_manual = some fm) (hex : countFalse fm ≠ 0) :
    (Child.applyFilter c).2 =
      .error (.notImplementedError "filter_manual not supported in hierarchy!") ∧
    assocGet (Child.applyFilter c).1.events "index" =
      some (.arr (arange1 (countTrue c.hparent.filter))) ∧
    (∀ k, k ≠ "index" →
      assocGet (Child.applyFilter c).1.events k = assocGet c.events k) ∧
    (Child.applyFilter c).1.filter =
      List.replicate (countTrue c.hparent.filter) true := by
  refine ⟨?_, ?_, ?_, ?_⟩
  · simp [Child.applyFilter, Parent.applyFilter, hfm, hex]
  · simp only [Child.applyFilter, Parent.applyFilter, hfm, if_pos hex]
    exact assocGet_set_self c.events "index" _
  · intro k hk
    simp only [Child.applyFilter, Parent.applyFilter, hfm, if_pos hex]
    exact assocGet_set_ne c.events "index" k _ hk
  · simp [Child.applyFilter, Parent.applyFilter, hfm, hex]

/-- C1 (witness): the amended statement evaluated on the concrete child of
the counterexample. -/
theorem C1_manual_filter_witness :
    (Child.applyFilter
        ⟨⟨[("area", PyVal.arr [5, 6, 7])], [true, false, false]⟩,
         [("index", PyVal.arr [1, 2, 3]), ("other", PyVal.nonarr "cfg")],
         [true, true, true], some [false]⟩).2 =
      .error (.notImplementedError "filter_manual not supported in hierarchy!") ∧
    assocGet (Child.applyFilter
        ⟨⟨[("area", PyVal.arr [5, 6, 7])], [true, false, false]⟩,
         [("index", PyVal.arr [1, 2, 3]), ("other", PyVal.nonarr "cfg")],
         [true, true, true], some [false]⟩).1.events "other" =
      some (PyVal.nonarr "cfg") ∧
    assocGet (Child.applyFilter
        ⟨⟨[("area", PyVal.arr [5, 6, 7])], [true, false, false]⟩,
         [("index", PyVal.arr [1, 2, 3]), ("other", PyVal.nonarr "cfg")],
         [true, true, true], some [false]⟩).1.events "index" =
      some (PyVal.arr [1]) := by
  refine ⟨(C1_manual_filter_amended _ [false] rfl (by decide)).1, ?_, ?_⟩
  · rw [(C1_manual_filter_amended _ [false] rfl (by decide)).2.2.1 "other" (by decide)]
    rfl
  · rw [(C1_manual_filter_amended _ [false] rfl (by decide)).2.1]
    decide

/-! ## Claim C3 -/

/-- C3: on a parent with 10 events whose filter selects events
`{0,2,4,6,8}`, the freshly constructed (and hence freshly
`apply_filter`-ed) child has length 5 and index `[1,2,3,4,5]`; after
mutating the parent's filter to select `{1,3,5,7,9}` and calling
`apply_filter` again, the length is still 5, the index is recomputed
identically, and the non-overridden feature `"area"` reads the parent's
values at positions `{1,3,5,7,9}`. -/
theorem C3_hierarchy_propagation :
    (Child.construct
        ⟨[("area", PyVal.arr [10, 11, 12, 13, 14, 15, 16, 17, 18, 19])],
         [true, false, true, false, true, false, true, false, true, false]⟩).2 = .ok () ∧
    (Child.construct
        ⟨[("area", PyVal.arr [10, 11, 12, 13, 14, 15, 16, 17, 18, 19])],
         [true, false, true, false, true, false, true, false, true, false]⟩).1.lengthEvents
      = 5 ∧
    (Child.construct
        ⟨[("area", PyVal.arr [10, 11, 12, 13, 14, 15, 16, 17, 18, 19])],
         [true, false, true, false, true, false, true, false, true, false]⟩).1.getItem
        "index" = .ok (PyVal.arr [1, 2, 3, 4, 5]) ∧
    (Child.applyFilter
        { (Child.construct
            ⟨[("area", PyVal.arr [10, 11, 12, 13, 14, 15, 16, 17, 18, 19])],
             [true, false, true, false, true, false, true, false, true, false]⟩).1 with
          hparent :=
            ⟨[("area", PyVal.arr [10, 11, 12, 13, 14, 15, 16, 17, 18, 19])],
             [false, true, false, true, false, true, false, true, false, true]⟩ }).2
      = .ok () ∧
    (Child.applyFilter
        { (Child.construct
            ⟨[("area", PyVal.arr [10, 11, 12, 13, 14, 15, 16, 17, 18, 19])],
             [true, false, true, false, true, false, true, false, true, false]⟩).1 with
          hparent :=
            ⟨[("area", PyVal.arr [10, 11, 12, 13, 14, 15, 16, 17, 18, 19])],
             [false, true, false, true, false, true, false, true, false, true]⟩ }).1.lengthEvents
      = 5 ∧
    (Child.applyFilter
        { (Child.construct
            ⟨[("area", PyVal.arr [10, 11, 12, 13, 14, 15, 16, 17, 18, 19])],
             [true, false, true, false, true, false, true, false, true, false]⟩).1 with
          hparent :=
            ⟨[("area", PyVal.arr [10, 11, 12, 13, 14, 15, 16, 17, 18, 19])],
             [false, true, false, true, false, true, false, true, false, true]⟩ }).1.getItem
        "index" = .ok (PyVal.arr [1, 2, 3, 4, 5]) ∧
    (Child.applyFilter
        { (Child.construct
            ⟨[("area", PyVal.arr [10, 11, 12, 13, 14, 15, 16, 17, 18, 19])],
             [true, false, true, false, true, false, true, false, true, false]⟩).1 with
          hparent :=
            ⟨[("area", PyVal.arr [10, 11, 12, 13, 14, 15, 16, 17, 18, 19])],
             [false, true, false, true, false, true, false, true, false, true]⟩ }).1.getItem
        "area" = .ok (PyVal.arr [11, 13, 15, 17, 19]) := by
  exact ⟨rfl, rfl, rfl, rfl, rfl, rfl, rfl⟩

/-! ## Claim C9 -/

/-- C9: for every key outside the child's local override cache, if the
parent holds the key with a non-array value, `child[key]` raises
`NotImplementedError` (not `KeyError`) and `key in child` is false; if the
parent holds it with an array value, `child[key]` is the parent's array
masked by the parent's current filter and `key in child` is true. -/
theorem C9_non_array_inheritance (c : Child) (k : String)
    (hk : assocGet c.events k = none) :
    (∀ t, assocGet c.hparent.events k = some (.nonarr t) →
      Child.getItem c k =
        .error (.notImplementedError ("Hierarchy does not implement " ++ k)) ∧
      Child.containsKey c k = false) ∧
    (∀ xs, assocGet c.hparent.events k = some (.arr xs) →
      Child.getItem c k = .ok (.arr (maskArr xs c.hparent.filter)) ∧
      Child.containsKey c k = true) := by
  constructor
  · intro t hp
    constructor
    · unfold Child.getItem Parent.getItem
      rw [hk, hp]
    · unfold Child.containsKey
      rw [hp]
  · intro xs hp
    constructor
    · unfold Child.getItem Parent.getItem
      rw [hk, hp]
    · unfold Child.containsKey
      rw [hp]

/-- C9 (witness): both cases evaluated on a concrete child whose parent
holds a non-array value under `"temp"` and an array under `"area"`. -/
theorem C9_non_array_inheritance_witness :
    Child.getItem
        ⟨⟨[("temp", PyVal.nonarr "meta"), ("area", PyVal.arr [7, 8])],
          [true, false]⟩, [], [true], none⟩ "temp" =
      .error (.notImplementedError "Hierarchy does not implement temp") ∧
    Child.containsKey
        ⟨⟨[("temp", PyVal.nonarr "meta"), ("area", PyVal.arr [7, 8])],
          [true, false]⟩, [], [true], none⟩ "temp" = false ∧
    Child.getItem
        ⟨⟨[("temp", PyVal.nonarr "meta"), ("area", PyVal.arr [7, 8])],
          [true, false]⟩, [], [true], none⟩ "area" = .ok (PyVal.arr [7]) ∧
    Child.containsKey
        ⟨⟨[("temp", PyVal.nonarr "meta"), ("area", PyVal.arr [7, 8])],
          [true, false]⟩, [], [true], none⟩ "area" = true := by
  have h1 := (C9_non_array_inheritance
    ⟨⟨[("temp", PyVal.nonarr "meta"), ("area", PyVal.arr [7, 8])],
      [true, false]⟩, [], [true], none⟩ "temp" rfl).1 "meta" rfl
  have h2 := (C9_non_array_inheritance
    ⟨⟨[("temp", PyVal.nonarr "meta"), ("area", PyVal.arr [7, 8])],
      [true, false]⟩, [], [true], none⟩ "area" rfl).2 [7, 8] rfl
  exact ⟨h1.1, h1.2, by rw [h2.1]; rfl, h2.2⟩

/-! ## Claim C10 -/

/-- C10: constructing a hierarchical child itself invokes `apply_filter`,
so immediately after construction — without any separate call by the
caller — construction succeeds, the `index` feature is populated as the
1-based sequence whose length is the number of `True` entries of the
parent's filter, and every array-valued parent feature can be read
(masked by the parent's filter). -/
theorem C10_construction_applies_filter (p : Parent) :
    (Child.construct p).2 = .ok () ∧
    assocGet (Child.construct p).1.events "index" =
      some (.arr (arange1 (countTrue p.filter))) ∧
    (∀ k xs, k ≠ "index" → assocGet p.events k = some (.arr xs) →
      Child.getItem (Child.construct p).1 k = .ok (.arr (maskArr xs p.filter))) := by
  refine ⟨rfl, ?_, ?_⟩
  · show assocGet (assocSet [] "index" (PyVal.arr (arange1 (countTrue p.filter)))) "index" =
      some (PyVal.arr (arange1 (countTrue p.filter)))
    exact assocGet_set_self [] "index" _
  · intro k xs hk hp
    have hc : (Child.construct p).1 =
        ⟨p, assocSet [] "index" (PyVal.arr (arange1 (countTrue p.filter))),
          List.replicate (countTrue p.filter) true, none⟩ := rfl
    rw [hc]
    unfold Child.getItem Parent.getItem
    rw [assocGet_set_ne [] "index" k _ hk, hp]
    rfl

/-- C10 (witness): construction of a child over a concrete 3-event parent
with two selected events populates `index = [1, 2]` and lets the `"area"`
feature be read through the parent's filter. -/
theorem C10_construction_applies_filter_witness :
    (Child.construct ⟨[("area", PyVal.arr [4, 5, 6])], [true, false, true]⟩).2 = .ok () ∧
    assocGet (Child.construct
        ⟨[("area", PyVal.arr [4, 5, 6])], [true, false, true]⟩).1.events "index" =
      some (PyVal.arr [1, 2]) ∧
    Child.getItem (Child.construct
        ⟨[("area", PyVal.arr [4, 5, 6])], [true, false, true]⟩).1 "area" =
      .ok (PyVal.arr [4, 6]) := by
  have h := C10_construction_applies_filter
    ⟨[("area", PyVal.arr [4, 5, 6])], [true, false, true]⟩
  refine ⟨h.1, ?_, ?_⟩
  · rw [h.2.1]
    decide
  · rw [h.2.2 "area" [4, 5, 6] (by decide) rfl]
    rfl

/-! ## Configuration store (src/dclab/rtdc_dataset/config.py) -/

/-- A configuration section: a `CaseInsensitiveDict` of keys to typed
values.  All keys are stored lower-cased because `CaseInsensitiveDict`
lower-cases on every insert and lookup. -/
abbrev Sect := List (String × CVal)

/-- A configuration: section name (stored lower-cased) to section. -/
abbrev Cfg := List (String × Sect)

/-- `CaseInsensitiveDict.__getitem__` on a section. -/
def sGet (s : Sect) (k : String) : Option CVal := assocGet s (lowerStr k)

/-- `CaseInsensitiveDict.__contains__` on a section. -/
def sHas (s : Sect) (k : String) : Bool := (sGet s k).isSome

/-- `CaseInsensitiveDict.__setitem__` on a section. -/
def sSet (s : Sect) (k : String) (v : CVal) : Sect := assocSet s (lowerStr k) v

/-- Section lookup on a configuration. -/
def cGet (c : Cfg) (k : String) : Option Sect := assocGet c (lowerStr k)

/-- `Configuration.__contains__`. -/
def cHas (c : Cfg) (k : String) : Bool := (cGet c k).isSome

/-- Section update on a configuration. -/
def cSet (c : Cfg) (k : String) (v : Sect) : Cfg := assocSet c (lowerStr k) v

/-- Section lookup with an empty default; in the modelled code paths the
section's presence has always been established before this is used. -/
def cGetD (c : Cfg) (k : String) : Sect := (cGet c k).getD []

/-- `self[key][skey] = value` on a configuration: in the source the
retrieved `CaseInsensitiveDict` aliases `_cfg[key]`, so the in-place
update is an update of the configuration. -/
def cSetIn (c : Cfg) (key skey : String) (v : CVal) : Cfg :=
  cSet c key (sSet (cGetD c key) skey v)

/-- `Configuration.update` (config.py lines 190-198): for every section of
the overlay, create it when absent, then overwrite each key
individually. -/
def cfgUpdate (c : Cfg) (new : Cfg) : Cfg :=
  new.foldl
    (fun c sec =>
      let c := if cHas c sec.1 then c else cSet c sec.1 []
      sec.2.foldl (fun c kv => cSetIn c sec.1 kv.1 kv.2) c)
    c

/-- Modelled from the spec: the packaged static default configuration
`config_default.cfg` (not under src/).  Per the spec's invariants
(section 3) and failure-mode note (section 4.1), the built-in defaults
provide at least the `general`, `plotting` and `filtering` sections; the
individual default keys are irrelevant to the claims and are not
modelled. -/
def defaultCfg : Cfg := [("general", []), ("plotting", []), ("filtering", [])]

/-- Python comparison `value < c` as used at config.py line 122: floats
and ints compare numerically, `numpy.nan` compares false, booleans
compare as 0/1, and a string or list on the left raises `TypeError` in
Python 3 (`none`). -/
def pyLtQ (v : CVal) (c : ℚ) : Option Bool :=
  match v with
  | .f q => some (decide (q < c))
  | .nanV => some false
  | .i n => some (decide ((n : ℚ) < c))
  | .b x => some (decide (((if x then 1 else 0) : ℚ) < c))
  | .s _ => none
  | .fl _ => none

/-- One `item + a` step of the min/max loop of `_fix_config` (config.py
lines 127-133): the accesses `self["plotting"]` / `self["filtering"]`
raise `KeyError` when the section is missing; a missing key is set to the
Python int `0`. -/
def fixMinMax (c : Cfg) (key : String) : Except PyErr Cfg :=
  if !(cHas c "plotting") then .error (.keyError "plotting")
  else
    let c := if !(sHas (cGetD c "plotting") key) then cSetIn c "plotting" key (.i 0) else c
    if !(cHas c "filtering") then .error (.keyError "filtering")
    else if !(sHas (cGetD c "filtering") key) then .ok (cSetIn c "filtering" key (.i 0))
    else .ok c

/-- The `for item in dfn.uid` loop of `_fix_config`, processing
`item + " min"` then `item + " max"` for each item. -/
def fixLoop : List String → Cfg → Except PyErr Cfg
  | [], c => .ok c
  | item :: rest, c => do
    let c ← fixMinMax c (item ++ " min")
    let c ← fixMinMax c (item ++ " max")
    fixLoop rest c

/-- `Configuration._fix_config` (config.py lines 111-133).  `uid` is
`dclab.definitions.uid` (definitions.py is not under src/; the list is
kept abstract).  The `assert` failure and the Python `TypeError` from an
unorderable flow-rate comparison are the error outcomes. -/
def fix_config (uid : List String) (c : Cfg) : Except PyErr Cfg :=
  if !(cHas c "general") then
    .error (.assertionError "Configuration not properly initialized!")
  else
    let c :=
      if !(sHas (cGetD c "general") "flow Rate [ul/s]") then
        cSetIn c "general" "flow Rate [ul/s]" .nanV
      else c
    (if !(sHas (cGetD c "general") "channel width") then
      match pyLtQ ((sGet (cGetD c "general") "flow Rate [ul/s]").getD .nanV) (16 / 100) with
      | none => .error (.typeError "unorderable types")
      | some true => .ok (cSetIn c "general" "channel width" (.i 20))
      | some false => .ok (cSetIn c "general" "channel width" (.i 30))
    else .ok c) >>= fixLoop uid

/-- The merged configuration state right before `_fix_config` runs: the
built-in defaults overlaid with each further source in order (the
explicit `cfg` mapping and the parsed configuration files, modelled as
already-parsed `Cfg` overlays). -/
def mergedSources (overlays : List Cfg) : Cfg :=
  overlays.foldl cfgUpdate (cfgUpdate [] defaultCfg)

/-- The effective flow-rate value `_fix_config` compares against `0.16`:
the stored value, or `numpy.nan` when the key is absent (it has just been
set to `numpy.nan` in that case). -/
def flowVal (m : Cfg) : CVal :=
  (sGet (cGetD m "general") "flow Rate [ul/s]").getD .nanV

/-- `Configuration.__init__` (config.py lines 64-89) with `rtdc_ds = None`:
update with the built-in defaults, then with each further source in
order, then `_fix_config`. -/
def Configuration.construct (uid : List String) (overlays : List Cfg) : Except PyErr Cfg :=
  fix_config uid (mergedSources overlays)

/-! ### Lookup/update interaction on configurations -/

theorem cGetD_lower_congr {c : Cfg} {sec sec' : String}
    (h : lowerStr sec = lowerStr sec') : cGetD c sec = cGetD c sec' := by
  unfold cGetD cGet
  rw [h]

theorem sGet_lower_congr {s : Sect} {k k' : String}
    (h : lowerStr k = lowerStr k') : sGet s k = sGet s k' := by
  unfold sGet
  rw [h]

theorem sGet_cSetIn (c : Cfg) (sec0 k0 : String) (v : CVal) (sec k : String) :
    sGet (cGetD (cSetIn c sec0 k0 v) sec) k =
      if lowerStr sec = lowerStr sec0 ∧ lowerStr k = lowerStr k0 then some v
      else sGet (cGetD c sec) k := by
  by_cases hs : lowerStr sec = lowerStr sec0
  · have hsec : cGetD (cSetIn c sec0 k0 v) sec = sSet (cGetD c sec0) k0 v := by
      unfold cSetIn cSet cGetD cGet
      rw [hs, assocGet_set_self]
      rfl
    rw [hsec]
    by_cases hk : lowerStr k = lowerStr k0
    · rw [if_pos ⟨hs, hk⟩]
      unfold sSet sGet
      rw [hk, assocGet_set_self]
    · rw [if_neg (fun hand => hk hand.2)]
      unfold sSet sGet
      rw [assocGet_set_ne _ _ _ _ hk, ← sGet, ← sGet, sGet_lower_congr rfl,
        cGetD_lower_congr hs]
  · rw [if_neg (fun hand => hs hand.1)]
    have hsec : cGetD (cSetIn c sec0 k0 v) sec = cGetD c sec := by
      unfold cSetIn cSet cGetD cGet
      rw [assocGet_set_ne _ _ _ _ hs]
    rw [hsec]

theorem cHas_cSetIn (c : Cfg) (sec0 k0 : String) (v : CVal) (sec : String) :
    cHas (cSetIn c sec0 k0 v) sec =
      if lowerStr sec = lowerStr sec0 then true else cHas c sec := by
  by_cases hs : lowerStr sec = lowerStr sec0
  · rw [if_pos hs]
    unfold cSetIn cSet cHas cGet
    rw [hs, assocGet_set_self]
    rfl
  · rw [if_neg hs]
    unfold cSetIn cSet cHas cGet
    rw [assocGet_set_ne _ _ _ _ hs]

theorem sHas_of_sGet_some {s : Sect} {k : String} {v : CVal}
    (h : sGet s k = some v) : sHas s k = true := by
  unfold sHas
  rw [h]
  rfl

theorem sGet_some_of_sHas {s : Sect} {k : String} (h : sHas s k = true) :
    ∃ v, sGet s k = some v := by
  unfold sHas at h
  cases hv : sGet s k with
  | none => rw [hv] at h; exact Bool.noConfusion h
  | some v => exact ⟨v, rfl⟩

/-- Preservation / additions performed by one `fixMinMax` step. -/
theorem fixMinMax_ok {c c' : Cfg} {key : String} (h : fixMinMax c key = .ok c') :
    (∀ sec k w, sGet (cGetD c sec) k = some w → sGet (cGetD c' sec) k = some w) ∧
    (∀ sec k, sGet (cGetD c' sec) k = sGet (cGetD c sec) k ∨
      sGet (cGetD c' sec) k = some (.i 0)) ∧
    sHas (cGetD c' "plotting") key = true ∧
    sHas (cGetD c' "filtering") key = true ∧
    (∀ sec, cHas c sec = true → cHas c' sec = true) ∧
    cHas c' "plotting" = true ∧ cHas c' "filtering" = true := by
  unfold fixMinMax at h
  by_cases hpl : cHas c "plotting"
  · rw [hpl] at h
    simp only [Bool.not_true, Bool.false_eq_true, if_false] at h
    set c1 := if !(sHas (cGetD c "plotting") key) then cSetIn c "plotting" key (.i 0) else c
      with hc1
    have hstep1 :
        (∀ sec k w, sGet (cGetD c sec) k = some w → sGet (cGetD c1 sec) k = some w) ∧
        (∀ sec k, sGet (cGetD c1 sec) k = sGet (cGetD c sec) k ∨
          sGet (cGetD c1 sec) k = some (.i 0)) ∧
        sHas (cGetD c1 "plotting") key = true ∧
        (∀ sec, cHas c sec = true → cHas c1 sec = true) := by
      by_cases hmiss : sHas (cGetD c "plotting") key
      · rw [hc1, if_neg (by rw [hmiss]; decide)]
        exact ⟨fun _ _ _ hw => hw, fun _ _ => Or.inl rfl, hmiss, fun _ h => h⟩
      · rw [hc1, if_pos (by rw [Bool.eq_false_iff.mpr hmiss]; rfl)]
        refine ⟨?_, ?_, ?_, ?_⟩
        · intro sec k w hw
          rw [sGet_cSetIn]
          by_cases hcond : lowerStr sec = lowerStr "plotting" ∧ lowerStr k = lowerStr key
          · exfalso
            rw [cGetD_lower_congr hcond.1, sGet_lower_congr hcond.2] at hw
            exact hmiss (sHas_of_sGet_some hw)
          · rw [if_neg hcond]
            exact hw
        · intro sec k
          rw [sGet_cSetIn]
          by_cases hcond : lowerStr sec = lowerStr "plotting" ∧ lowerStr k = lowerStr key
          · rw [if_pos hcond]
            exact Or.inr rfl
          · rw [if_neg hcond]
            exact Or.inl rfl
        · apply sHas_of_sGet_some (v := .i 0)
          rw [sGet_cSetIn, if_pos ⟨rfl, rfl⟩]
        · intro sec hsec
          rw [cHas_cSetIn]
          by_cases hcond : lowerStr sec = lowerStr "plotting"
          · rw [if_pos hcond]
          · rw [if_neg hcond]
            exact hsec
    obtain ⟨hA1, hB1, hP1, hH1⟩ := hstep1
    have hfl1 : cHas c1 "filtering" = true → True := fun _ => trivial
    by_cases hfl : cHas c1 "filtering"
    · rw [hfl] at h
      simp only [Bool.not_true, Bool.false_eq_true, if_false] at h
      by_cases hmiss2 : sHas (cGetD c1 "filtering") key
      · rw [if_neg (by rw [hmiss2]; decide)] at h
        rw [Except.ok.injEq] at h
        subst h
        refine ⟨hA1, hB1, hP1, hmiss2, hH1, ?_, hfl⟩
        exact hH1 _ hpl
      · rw [if_pos (by rw [Bool.eq_false_iff.mpr hmiss2]; rfl)] at h
        rw [Except.ok.injEq] at h
        subst h
        refine ⟨?_, ?_, ?_, ?_, ?_, ?_, ?_⟩
        · intro sec k w hw
          rw [sGet_cSetIn]
          by_cases hcond : lowerStr sec = lowerStr "filtering" ∧ lowerStr k = lowerStr key
          · exfalso
            have hw1 := hA1 sec k w hw
            rw [cGetD_lower_congr hcond.1, sGet_lower_congr hcond.2] at hw1
            exact hmiss2 (sHas_of_sGet_some hw1)
          · rw [if_neg hcond]
            exact hA1 sec k w hw
        · intro sec k
          rw [sGet_cSetIn]
          by_cases hcond : lowerStr sec = lowerStr "filtering" ∧ lowerStr k = lowerStr key
          · rw [if_pos hcond]
            exact Or.inr rfl
          · rw [if_neg hcond]
            exact hB1 sec k
        · obtain ⟨v, hv⟩ := sGet_some_of_sHas hP1
          apply sHas_of_sGet_some (v := v)
          rw [sGet_cSetIn, if_neg (fun hcond => absurd hcond.1 (by decide))]
          exact hv
        · apply sHas_of_sGet_some (v := .i 0)
          rw [sGet_cSetIn, if_pos ⟨rfl, rfl⟩]
        · intro sec hsec
          rw [cHas_cSetIn]
          by_cases hcond : lowerStr sec = lowerStr "filtering"
          · rw [if_pos hcond]
          · rw [if_neg hcond]
            exact hH1 sec hsec
        · rw [cHas_cSetIn, if_neg (by decide)]
          exact hH1 _ hpl
        · rw [cHas_cSetIn, if_pos rfl]
    · rw [Bool.eq_false_iff.mpr hfl] at h
      simp at h
  · rw [Bool.eq_false_iff.mpr hpl] at h
    simp at h

theorem sHas_pres {c c' : Cfg}
    (hA : ∀ sec k w, sGet (cGetD c sec) k = some w → sGet (cGetD c' sec) k = some w)
    {sec k : String} (h : sHas (cGetD c sec) k = true) :
    sHas (cGetD c' sec) k = true := by
  obtain ⟨v, hv⟩ := sGet_some_of_sHas h
  exact sHas_of_sGet_some (hA _ _ _ hv)

theorem fixMinMax_noop {c : Cfg} {key : String}
    (hpl : cHas c "plotting" = true) (hfl : cHas c "filtering" = true)
    (hp : sHas (cGetD c "plotting") key = true)
    (hf : sHas (cGetD c "filtering") key = true) :
    fixMinMax c key = .ok c := by
  unfold fixMinMax
  rw [hpl, hp]
  simp only [Bool.not_true, Bool.false_eq_true, if_false]
  rw [hfl, hf]
  simp only [Bool.not_true, Bool.false_eq_true, if_false]

theorem fixLoop_ok :
    ∀ {uid : List String} {c c' : Cfg}, fixLoop uid c = .ok c' →
      (∀ sec k w, sGet (cGetD c sec) k = some w → sGet (cGetD c' sec) k = some w) ∧
      (∀ sec k, sGet (cGetD c' sec) k = sGet (cGetD c sec) k ∨
        sGet (cGetD c' sec) k = some (.i 0)) ∧
      (∀ sec, cHas c sec = true → cHas c' sec = true) ∧
      (∀ item ∈ uid, ∀ sfx ∈ ([" min", " max"] : List String),
        sHas (cGetD c' "plotting") (item ++ sfx) = true ∧
        sHas (cGetD c' "filtering") (item ++ sfx) = true) ∧
      (uid ≠ [] → cHas c' "plotting" = true ∧ cHas c' "filtering" = true) := by
  intro uid
  induction uid with
  | nil =>
    intro c c' h
    unfold fixLoop at h
    rw [Except.ok.injEq] at h
    subst h
    exact ⟨fun _ _ _ hw => hw, fun _ _ => Or.inl rfl, fun _ h => h,
      fun item hit => absurd hit (List.not_mem_nil item), fun hne => absurd rfl hne⟩
  | cons item rest ih =>
    intro c c' h
    unfold fixLoop at h
    cases h1 : fixMinMax c (item ++ " min") with
    | error e => rw [h1] at h; exact Except.noConfusion h
    | ok c1 =>
      rw [h1] at h
      simp only [bind, Except.bind] at h
      cases h2 : fixMinMax c1 (item ++ " max") with
      | error e => rw [h2] at h; exact Except.noConfusion h
      | ok c2 =>
        rw [h2] at h
        simp only [bind, Except.bind] at h
        obtain ⟨hA1, hB1, hPmin, hFmin, hH1, hcp1, hcf1⟩ := fixMinMax_ok h1
        obtain ⟨hA2, hB2, hPmax, hFmax, hH2, hcp2, hcf2⟩ := fixMinMax_ok h2
        obtain ⟨hA3, hB3, hH3, hKeys3, _⟩ := ih h
        refine ⟨?_, ?_, ?_, ?_, ?_⟩
        · intro sec k w hw
          exact hA3 _ _ _ (hA2 _ _ _ (hA1 _ _ _ hw))
        · intro sec k
          rcases hB3 sec k with h3 | h3
          · rw [h3]
            rcases hB2 sec k with h4 | h4
            · rw [h4]
              exact hB1 sec k
            · rw [h4]
              exact Or.inr rfl
          · exact Or.inr h3
        · intro sec hsec
          exact hH3 _ (hH2 _ (hH1 _ hsec))
        · intro it hit sfx hsfx
          rcases List.mem_cons.1 hit with hit | hit
          · subst hit
            rcases List.mem_cons.1 hsfx with hsfx | hsfx
            · subst hsfx
              exact ⟨sHas_pres hA3 (sHas_pres hA2 hPmin),
                sHas_pres hA3 (sHas_pres hA2 hFmin)⟩
            · rw [List.mem_singleton.1 hsfx]
              exact ⟨sHas_pres hA3 hPmax, sHas_pres hA3 hFmax⟩
          · exact hKeys3 it hit sfx hsfx
        · intro _
          exact ⟨hH3 _ (hH2 _ hcp1), hH3 _ (hH2 _ hcf1)⟩

theorem fixLoop_noop :
    ∀ {uid : List String} {c : Cfg},
      (∀ item ∈ uid, ∀ sfx ∈ ([" min", " max"] : List String),
        sHas (cGetD c "plotting") (item ++ sfx) = true ∧
        sHas (cGetD c "filtering") (item ++ sfx) = true) →
      (uid ≠ [] → cHas c "plotting" = true ∧ cHas c "filtering" = true) →
      fixLoop uid c = .ok c := by
  intro uid
  induction uid with
  | nil => intro c _ _; rfl
  | cons item rest ih =>
    intro c hkeys hsec
    obtain ⟨hcp, hcf⟩ := hsec (by simp)
    have hmin := hkeys item (List.mem_cons_self item rest) " min" (by simp)
    have hmax := hkeys item (List.mem_cons_self item rest) " max" (by simp)
    unfold fixLoop
    rw [fixMinMax_noop hcp hcf hmin.1 hmin.2]
    simp only [bind, Except.bind]
    rw [fixMinMax_noop hcp hcf hmax.1 hmax.2]
    simp only [bind, Except.bind]
    exact ih (fun it hit => hkeys it (List.mem_cons_of_mem item hit))
      (fun _ => ⟨hcp, hcf⟩)

/-- Everything `_fix_config` guarantees about a successful run, relative to
its input state `m`. -/
theorem fix_config_ok {uid : List String} {m c : Cfg} (h : fix_config uid m = .ok c) :
    cHas c "general" = true ∧
    sHas (cGetD c "general") "flow rate [ul/s]" = true ∧
    sHas (cGetD c "general") "channel width" = true ∧
    (∀ sec, cHas m sec = true → cHas c sec = true) ∧
    (sHas (cGetD m "general") "flow Rate [ul/s]" = false →
      sGet (cGetD c "general") "flow rate [ul/s]" = some .nanV) ∧
    (sHas (cGetD m "general") "channel width" = false →
      sGet (cGetD c "general") "channel width" =
        some (if pyLtQ (flowVal m) (16 / 100) = some true then .i 20 else .i 30)) ∧
    (∀ item ∈ uid, ∀ sfx ∈ ([" min", " max"] : List String),
      (sHas (cGetD c "plotting") (item ++ sfx) = true ∧
       sHas (cGetD c "filtering") (item ++ sfx) = true) ∧
      (sHas (cGetD m "plotting") (item ++ sfx) = false →
        sGet (cGetD c "plotting") (item ++ sfx) = some (.i 0)) ∧
      (sHas (cGetD m "filtering") (item ++ sfx) = false →
        sGet (cGetD c "filtering") (item ++ sfx) = some (.i 0))) ∧
    (uid ≠ [] → cHas c "plotting" = true ∧ cHas c "filtering" = true) := by
  unfold fix_config at h
  by_cases hgen : cHas m "general"
  · rw [hgen] at h
    simp only [Bool.not_true, Bool.false_eq_true, if_false] at h
    -- the flow-rate fallback state
    set c1 := if !(sHas (cGetD m "general") "flow Rate [ul/s]") then
        cSetIn m "general" "flow Rate [ul/s]" CVal.nanV
      else m with hc1def
    have hlowflow : lowerStr "flow rate [ul/s]" = lowerStr "flow Rate [ul/s]" := by decide
    have hc1flow : sGet (cGetD c1 "general") "flow rate [ul/s]" =
        if sHas (cGetD m "general") "flow Rate [ul/s]" = false then some CVal.nanV
        else sGet (cGetD m "general") "flow rate [ul/s]" := by
      by_cases hmiss : sHas (cGetD m "general") "flow Rate [ul/s]"
      · rw [hc1def, if_neg (by rw [hmiss]; decide), if_neg (by rw [hmiss]; decide)]
      · rw [hc1def, if_pos (by rw [Bool.eq_false_iff.mpr hmiss]; rfl),
          if_pos (Bool.eq_false_iff.mpr hmiss)]
        rw [sGet_cSetIn, if_pos ⟨rfl, hlowflow⟩]
    have hc1other : ∀ k, lowerStr k ≠ lowerStr "flow Rate [ul/s]" →
        ∀ sec, sGet (cGetD c1 sec) k = sGet (cGetD m sec) k := by
      intro k hk sec
      by_cases hmiss : sHas (cGetD m "general") "flow Rate [ul/s]"
      · rw [hc1def, if_neg (by rw [hmiss]; decide)]
      · rw [hc1def, if_pos (by rw [Bool.eq_false_iff.mpr hmiss]; rfl)]
        rw [sGet_cSetIn, if_neg (fun hand => hk hand.2)]
    have hc1othersec : ∀ sec k, lowerStr sec ≠ lowerStr "general" →
        sGet (cGetD c1 sec) k = sGet (cGetD m sec) k := by
      intro sec k hsec
      by_cases hmiss : sHas (cGetD m "general") "flow Rate [ul/s]"
      · rw [hc1def, if_neg (by rw [hmiss]; decide)]
      · rw [hc1def, if_pos (by rw [Bool.eq_false_iff.mpr hmiss]; rfl)]
        rw [sGet_cSetIn, if_neg (fun hand => hsec hand.1)]
    have hc1has : ∀ sec, cHas m sec = true → cHas c1 sec = true := by
      intro sec hsec
      by_cases hmiss : sHas (cGetD m "general") "flow Rate [ul/s]"
      · rw [hc1def, if_neg (by rw [hmiss]; decide)]
        exact hsec
      · rw [hc1def, if_pos (by rw [Bool.eq_false_iff.mpr hmiss]; rfl), cHas_cSetIn]
        by_cases hcond : lowerStr sec = lowerStr "general"
        · rw [if_pos hcond]
        · rw [if_neg hcond]
          exact hsec
    have hsget_none : ∀ {s : Sect} {k : String}, sHas s k = false → sGet s k = none := by
      intro s k hk
      unfold sHas at hk
      cases hv : sGet s k with
      | none => rfl
      | some v => rw [hv] at hk; exact Bool.noConfusion hk
    have hc1flowpresent : sHas (cGetD c1 "general") "flow rate [ul/s]" = true := by
      unfold sHas
      rw [hc1flow]
      by_cases hmiss : sHas (cGetD m "general") "flow Rate [ul/s]"
      · rw [if_neg (by rw [hmiss]; exact Bool.noConfusion)]
        obtain ⟨v, hv⟩ := sGet_some_of_sHas hmiss
        rw [sGet_lower_congr hlowflow, hv]
        rfl
      · rw [if_pos (Bool.eq_false_iff.mpr hmiss)]
        rfl
    have hcomparand : (sGet (cGetD c1 "general") "flow Rate [ul/s]").getD CVal.nanV =
        flowVal m := by
      unfold flowVal
      by_cases hmiss : sHas (cGetD m "general") "flow Rate [ul/s]"
      · rw [hc1def, if_neg (by rw [hmiss]; decide)]
      · rw [hc1def, if_pos (by rw [Bool.eq_false_iff.mpr hmiss]; rfl),
          sGet_cSetIn, if_pos ⟨rfl, rfl⟩, hsget_none (Bool.eq_false_iff.mpr hmiss)]
        rfl
    have hwid_eq : sHas (cGetD c1 "general") "channel width" =
        sHas (cGetD m "general") "channel width" := by
      unfold sHas
      rw [hc1other "channel width" (by decide) "general"]
    have hfinish : ∀ c2 : Cfg, fixLoop uid c2 = .ok c →
        sHas (cGetD c2 "general") "flow rate [ul/s]" = true →
        sHas (cGetD c2 "general") "channel width" = true →
        (∀ sec, cHas m sec = true → cHas c2 sec = true) →
        (sHas (cGetD m "general") "flow Rate [ul/s]" = false →
          sGet (cGetD c2 "general") "flow rate [ul/s]" = some CVal.nanV) →
        (sHas (cGetD m "general") "channel width" = false →
          sGet (cGetD c2 "general") "channel width" =
            some (if pyLtQ (flowVal m) (16 / 100) = some true then CVal.i 20 else CVal.i 30)) →
        (∀ sec k, lowerStr sec ≠ lowerStr "general" →
          sGet (cGetD c2 sec) k = sGet (cGetD m sec) k) →
        (cHas c "general" = true ∧
          sHas (cGetD c "general") "flow rate [ul/s]" = true ∧
          sHas (cGetD c "general") "channel width" = true ∧
          (∀ sec, cHas m sec = true → cHas c sec = true) ∧
          (sHas (cGetD m "general") "flow Rate [ul/s]" = false →
            sGet (cGetD c "general") "flow rate [ul/s]" = some .nanV) ∧
          (sHas (cGetD m "general") "channel width" = false →
            sGet (cGetD c "general") "channel width" =
              some (if pyLtQ (flowVal m) (16 / 100) = some true then .i 20 else .i 30)) ∧
          (∀ item ∈ uid, ∀ sfx ∈ ([" min", " max"] : List String),
            (sHas (cGetD c "plotting") (item ++ sfx) = true ∧
             sHas (cGetD c "filtering") (item ++ sfx) = true) ∧
            (sHas (cGetD m "plotting") (item ++ sfx) = false →
              sGet (cGetD c "plotting") (item ++ sfx) = some (.i 0)) ∧
            (sHas (cGetD m "filtering") (item ++ sfx) = false →
              sGet (cGetD c "filtering") (item ++ sfx) = some (.i 0))) ∧
          (uid ≠ [] → cHas c "plotting" = true ∧ cHas c "filtering" = true)) := by
      intro c2 hloop hflow2 hwid2 hhas2 hflowval2 hwidval2 hother2
      obtain ⟨hA3, hB3, hH3, hKeys3, hSec3⟩ := fixLoop_ok hloop
      refine ⟨hH3 _ (hhas2 _ hgen), sHas_pres hA3 hflow2, sHas_pres hA3 hwid2,
        fun sec hs => hH3 _ (hhas2 _ hs), ?_, ?_, ?_, hSec3⟩
      · intro hmiss
        exact hA3 _ _ _ (hflowval2 hmiss)
      · intro hmiss
        exact hA3 _ _ _ (hwidval2 hmiss)
      · intro item hit sfx hsfx
        refine ⟨hKeys3 item hit sfx hsfx, ?_, ?_⟩
        · intro hmiss
          have habs : sGet (cGetD c2 "plotting") (item ++ sfx) = none := by
            rw [hother2 "plotting" (item ++ sfx) (by decide)]
            unfold sHas at hmiss
            cases hv : sGet (cGetD m "plotting") (item ++ sfx) with
            | none => rfl
            | some v => rw [hv] at hmiss; exact Bool.noConfusion hmiss
          obtain ⟨v, hv⟩ := sGet_some_of_sHas (hKeys3 item hit sfx hsfx).1
          rcases hB3 "plotting" (item ++ sfx) with hc | hc
          · rw [hv, habs] at hc
            exact Option.noConfusion hc
          · exact hc
        · intro hmiss
          have habs : sGet (cGetD c2 "filtering") (item ++ sfx) = none := by
            rw [hother2 "filtering" (item ++ sfx) (by decide)]
            unfold sHas at hmiss
            cases hv : sGet (cGetD m "filtering") (item ++ sfx) with
            | none => rfl
            | some v => rw [hv] at hmiss; exact Bool.noConfusion hmiss
          obtain ⟨v, hv⟩ := sGet_some_of_sHas (hKeys3 item hit sfx hsfx).2
          rcases hB3 "filtering" (item ++ sfx) with hc | hc
          · rw [hv, habs] at hc
            exact Option.noConfusion hc
          · exact hc
    by_cases hwid : sHas (cGetD c1 "general") "channel width"
    · rw [hwid] at h
      simp only [Bool.not_true, Bool.false_eq_true, if_false, bind, Except.bind] at h
      refine hfinish c1 h hc1flowpresent hwid hc1has ?_ ?_ hc1othersec
      · intro hmiss
        rw [hc1flow, if_pos hmiss]
      · intro hmiss
        exfalso
        rw [hwid_eq, hmiss] at hwid
        exact Bool.noConfusion hwid
    · rw [Bool.eq_false_iff.mpr hwid] at h
      simp only [Bool.not_false, if_true] at h
      rw [hcomparand] at h
      have hwidm : sHas (cGetD m "general") "channel width" = false := by
        rw [← hwid_eq]
        exact Bool.eq_false_iff.mpr hwid
      cases hcmp : pyLtQ (flowVal m) (16 / 100) with
      | none =>
        rw [hcmp] at h
        exact Except.noConfusion h
      | some b =>
        rw [hcmp] at h
        have hval : CVal.i (if b then 20 else 30) =
            if pyLtQ (flowVal m) (16 / 100) = some true then CVal.i 20 else CVal.i 30 := by
          cases b
          · rw [hcmp, if_neg (by simp), if_neg (by simp)]
          · rw [hcmp, if_pos rfl, if_pos rfl]
        have hred : (match (some b : Option Bool) with
            | none => Except.error (PyErr.typeError "unorderable types")
            | some true => Except.ok (cSetIn c1 "general" "channel width" (CVal.i 20))
            | some false => Except.ok (cSetIn c1 "general" "channel width" (CVal.i 30))) =
            Except.ok (cSetIn c1 "general" "channel width" (CVal.i (if b then 20 else 30))) := by
          cases b <;> rfl
        rw [hred] at h
        simp only [bind, Except.bind] at h
        set c2 := cSetIn c1 "general" "channel width" (CVal.i (if b then 20 else 30)) with hc2def
        rw [← hcmp]
        refine hfinish c2 h ?_ ?_ ?_ ?_ ?_ ?_
        · obtain ⟨v, hv⟩ := sGet_some_of_sHas hc1flowpresent
          apply sHas_of_sGet_some (v := v)
          rw [hc2def, sGet_cSetIn, if_neg (fun hand => absurd hand.2 (by decide))]
          exact hv
        · apply sHas_of_sGet_some (v := CVal.i (if b then 20 else 30))
          rw [hc2def, sGet_cSetIn, if_pos ⟨rfl, rfl⟩]
        · intro sec hsec
          rw [hc2def, cHas_cSetIn]
          by_cases hcond : lowerStr sec = lowerStr "general"
          · rw [if_pos hcond]
          · rw [if_neg hcond]
            exact hc1has sec hsec
        · intro hmiss
          rw [hc2def, sGet_cSetIn,
            if_neg (fun hand => absurd hand.2 (by decide))]
          rw [hc1flow, if_pos hmiss]
        · intro _
          rw [hc2def, sGet_cSetIn, if_pos ⟨rfl, rfl⟩, hval]
        · intro sec k hsec
          rw [hc2def, sGet_cSetIn, if_neg (fun hand => hsec hand.1)]
          exact hc1othersec sec k hsec
  · rw [Bool.eq_false_iff.mpr hgen] at h
    simp at h

theorem cHas_cSet_mono {c : Cfg} {k0 : String} {v : Sect} {sec : String}
    (h : cHas c sec = true) : cHas (cSet c k0 v) sec = true := by
  unfold cHas cGet cSet at *
  by_cases hc : lowerStr sec = lowerStr k0
  · rw [hc, assocGet_set_self]
    rfl
  · rw [assocGet_set_ne _ _ _ _ hc]
    exact h

theorem cHas_foldl_mono {β : Type} (f : Cfg → β → Cfg)
    (hf : ∀ c b sec, cHas c sec = true → cHas (f c b) sec = true) :
    ∀ (l : List β) (c : Cfg) (sec : String),
      cHas c sec = true → cHas (l.foldl f c) sec = true
  | [], _, _, h => h
  | b :: l, c, sec, h => cHas_foldl_mono f hf l (f c b) sec (hf c b sec h)

theorem cHas_cSetIn_mono {c : Cfg} {sec0 k0 : String} {v : CVal} {sec : String}
    (h : cHas c sec = true) : cHas (cSetIn c sec0 k0 v) sec = true := by
  rw [cHas_cSetIn]
  by_cases hc : lowerStr sec = lowerStr sec0
  · rw [if_pos hc]
  · rw [if_neg hc]
    exact h

theorem cHas_cfgUpdate_mono {c new : Cfg} {sec : String}
    (h : cHas c sec = true) : cHas (cfgUpdate c new) sec = true := by
  unfold cfgUpdate
  refine cHas_foldl_mono _ ?_ new c sec h
  intro c b sec h
  dsimp only
  refine cHas_foldl_mono (fun c kv => cSetIn c b.1 kv.1 kv.2)
    (fun c kv sec h => cHas_cSetIn_mono h) b.2 _ sec ?_
  by_cases hc : cHas c b.1
  · rw [if_pos hc]
    exact h
  · rw [if_neg hc]
    exact cHas_cSet_mono h

/-- The merged sources always contain the three sections the built-in
defaults provide. -/
theorem mergedSources_sections (overlays : List Cfg) :
    cHas (mergedSources overlays) "general" = true ∧
    cHas (mergedSources overlays) "plotting" = true ∧
    cHas (mergedSources overlays) "filtering" = true := by
  unfold mergedSources
  refine ⟨?_, ?_, ?_⟩ <;>
    exact cHas_foldl_mono cfgUpdate (fun c b sec h => cHas_cfgUpdate_mono h)
      overlays _ _ (by decide)

/-! ## Claim C7 -/

/-- C7: after construction from any combination of defaults, explicit
mapping and file sources, the `general` section exists, `flow rate
[ul/s]` and `channel width` are present (flow rate falling back to NaN
when absent; channel width falling back to 20 when the effective flow
rate compares below 0.16 and to 30 otherwise, including the NaN case),
the `plotting` and `filtering` sections exist, and every known feature
identifier has min/max keys in both, defaulting to the Python int 0 when
not supplied by the merged sources. -/
theorem C7_construction_invariants (uid : List String) (overlays : List Cfg) (c : Cfg)
    (h : Configuration.construct uid overlays = .ok c) :
    cHas c "general" = true ∧
    cHas c "plotting" = true ∧
    cHas c "filtering" = true ∧
    sHas (cGetD c "general") "flow rate [ul/s]" = true ∧
    sHas (cGetD c "general") "channel width" = true ∧
    (sHas (cGetD (mergedSources overlays) "general") "flow Rate [ul/s]" = false →
      sGet (cGetD c "general") "flow rate [ul/s]" = some .nanV) ∧
    (sHas (cGetD (mergedSources overlays) "general") "channel width" = false →
      sGet (cGetD c "general") "channel width" =
        some (if pyLtQ (flowVal (mergedSources overlays)) (16 / 100) = some true
          then .i 20 else .i 30)) ∧
    (∀ item ∈ uid, ∀ sfx ∈ ([" min", " max"] : List String),
      (sHas (cGetD c "plotting") (item ++ sfx) = true ∧
       sHas (cGetD c "filtering") (item ++ sfx) = true) ∧
      (sHas (cGetD (mergedSources overlays) "plotting") (item ++ sfx) = false →
        sGet (cGetD c "plotting") (item ++ sfx) = some (.i 0)) ∧
      (sHas (cGetD (mergedSources overlays) "filtering") (item ++ sfx) = false →
        sGet (cGetD c "filtering") (item ++ sfx) = some (.i 0))) := by
  obtain ⟨hgen, hflow, hwid, hpres, hflowval, hwidval, hitems, _⟩ := fix_config_ok h
  obtain ⟨hg, hp, hf⟩ := mergedSources_sections overlays
  exact ⟨hgen, hpres _ hp, hpres _ hf, hflow, hwid, hflowval, hwidval, hitems⟩

/-- C7 (witness): construction with `uid = ["area"]` and no extra sources
produces a configuration realizing every invariant. -/
theorem C7_construction_invariants_witness :
    Configuration.construct ["area"] [] =
      .ok [("general", [("flow rate [ul/s]", CVal.nanV), ("channel width", CVal.i 30)]),
           ("plotting", [("area min", CVal.i 0), ("area max", CVal.i 0)]),
           ("filtering", [("area min", CVal.i 0), ("area max", CVal.i 0)])] ∧
    sHas (cGetD [("general", [("flow rate [ul/s]", CVal.nanV), ("channel width", CVal.i 30)]),
           ("plotting", [("area min", CVal.i 0), ("area max", CVal.i 0)]),
           ("filtering", [("area min", CVal.i 0), ("area max", CVal.i 0)])]
        "general") "flow rate [ul/s]" = true ∧
    sHas (cGetD [("general", [("flow rate [ul/s]", CVal.nanV), ("channel width", CVal.i 30)]),
           ("plotting", [("area min", CVal.i 0), ("area max", CVal.i 0)]),
           ("filtering", [("area min", CVal.i 0), ("area max", CVal.i 0)])]
        "general") "channel width" = true ∧
    sGet (cGetD [("general", [("flow rate [ul/s]", CVal.nanV), ("channel width", CVal.i 30)]),
           ("plotting", [("area min", CVal.i 0), ("area max", CVal.i 0)]),
           ("filtering", [("area min", CVal.i 0), ("area max", CVal.i 0)])]
        "plotting") "area min" = some (CVal.i 0) := by
  have h : Configuration.construct ["area"] [] =
      .ok [("general", [("flow rate [ul/s]", CVal.nanV), ("channel width", CVal.i 30)]),
           ("plotting", [("area min", CVal.i 0), ("area max", CVal.i 0)]),
           ("filtering", [("area min", CVal.i 0), ("area max", CVal.i 0)])] := rfl
  have hinv := C7_construction_invariants ["area"] [] _ h
  refine ⟨h, hinv.2.2.2.1, hinv.2.2.2.2.1, ?_⟩
  exact (hinv.2.2.2.2.2.2.2 "area" (by decide) " min" (by decide)).2.1 (by decide)

/-! ## Claim C8 -/

/-- C8: `_fix_config` is idempotent — whenever a first run succeeds, a
second run on its result succeeds and changes nothing. -/
theorem C8_fix_config_idempotent (uid : List String) (c c' : Cfg)
    (h : fix_config uid c = .ok c') : fix_config uid c' = .ok c' := by
  obtain ⟨hgen, hflow, hwid, _, _, _, hitems, hsect⟩ := fix_config_ok h
  unfold fix_config
  rw [hgen]
  simp only [Bool.not_true, Bool.false_eq_true, if_false]
  have hflow2 : sHas (cGetD c' "general") "flow Rate [ul/s]" = true := by
    unfold sHas at hflow ⊢
    rw [← sGet_lower_congr
      (by decide : lowerStr "flow rate [ul/s]" = lowerStr "flow Rate [ul/s]")]
    exact hflow
  rw [hflow2]
  simp only [Bool.not_true, Bool.false_eq_true, if_false]
  rw [hwid]
  simp only [Bool.not_true, Bool.false_eq_true, if_false, bind, Except.bind]
  exact fixLoop_noop (fun item hit sfx hsfx => (hitems item hit sfx hsfx).1) hsect

/-- C8 (witness): a second `_fix_config` run on the result of fixing the
bare three-section configuration returns it unchanged. -/
theorem C8_fix_config_idempotent_witness :
    fix_config ["area"] [("general", []), ("plotting", []), ("filtering", [])] =
      .ok [("general", [("flow rate [ul/s]", CVal.nanV), ("channel width", CVal.i 30)]),
           ("plotting", [("area min", CVal.i 0), ("area max", CVal.i 0)]),
           ("filtering", [("area min", CVal.i 0), ("area max", CVal.i 0)])] ∧
    fix_config ["area"]
        [("general", [("flow rate [ul/s]", CVal.nanV), ("channel width", CVal.i 30)]),
         ("plotting", [("area min", CVal.i 0), ("area max", CVal.i 0)]),
         ("filtering", [("area min", CVal.i 0), ("area max", CVal.i 0)])] =
      .ok [("general", [("flow rate [ul/s]", CVal.nanV), ("channel width", CVal.i 30)]),
           ("plotting", [("area min", CVal.i 0), ("area max", CVal.i 0)]),
           ("filtering", [("area min", CVal.i 0), ("area max", CVal.i 0)])] := by
  have h : fix_config ["area"] [("general", []), ("plotting", []), ("filtering", [])] =
      .ok [("general", [("flow rate [ul/s]", CVal.nanV), ("channel width", CVal.i 30)]),
           ("plotting", [("area min", CVal.i 0), ("area max", CVal.i 0)]),
           ("filtering", [("area min", CVal.i 0), ("area max", CVal.i 0)])] := rfl
  exact ⟨h, C8_fix_config_idempotent ["area"] _ _ h⟩

/-! ## Container writer (src/dclab/rtdc_dataset/write_hdf5.py) -/

/-- An HDF5 attribute value after the declared-type coercion. -/
inductive AttrVal where
  | aS (s : String)
  | aI (n : ℤ)
  | aQ (q : ℚ)
  | aB (b : Bool)
deriving DecidableEq, Repr

/-- An entry of an HDF5 group: a resizable 1-D scalar dataset, a 2-D
dataset (a contour item or a trace channel), a 3-D dataset (the image
stack), a dataset of text lines (a log), or a sub-group.  Dataset-level
attributes (the image-viewer tags set by `store_image`) are not
represented; no claim refers to them. -/
inductive H5Entry where
  | dset1 (xs : List Int)
  | dset2 (xs : List (List Int))
  | dset3 (xs : List (List (List Int)))
  | dsetS (lines : List String)
  | grp (sub : List (String × H5Entry))

/-- An HDF5 file: top-level attributes and the root group. -/
structure H5File where
  attrs : List (String × AttrVal)
  root : List (String × H5Entry)

/-- The file system holding the target containers (path to file). -/
structure FS where
  files : List (String × H5File)

/-- A trace array as passed to `store_trace`: one event (1-D) or a
series (2-D). -/
inductive TraceArr where
  | t1 (xs : List Int)
  | t2 (xs : List (List Int))

/-- The value under one key of the writer's `data` argument. -/
inductive DataVal where
  | sc1 (x : Int)
  | sc (xs : List Int)
  | co1 (c : List (List Int))
  | co (cs : List (List (List Int)))
  | im2 (im : List (List Int))
  | im (ims : List (List (List Int)))
  | tr (t : List (String × TraceArr))

/-- A log payload: a single string (treated as a one-line log) or a list
of lines. -/
inductive LogVal where
  | one (s : String)
  | many (ls : List String)

/-- Modelled from the spec: the known-vocabulary service
(`dclab.definitions`, not under src/) — the valid scalar feature names,
the configuration section/key names with their declared-type coercions,
and the fluorescence trace channel names. -/
structure Dfn where
  feature_names : List String
  config_keys : List (String × List String)
  config_types : String → String → AttrVal → AttrVal
  FLUOR_TRACES : List String

/-- Modelled from the spec: the fixed software-version stamp written as
`setup:software version` on every write (`dclab._version` is not under
src/; the concrete string is immaterial to the claims). -/
def software_version_stamp : String := "dclab 0"

/-- `store_scalar` (write_hdf5.py lines 66-80): wrap a single event, create
a resizable dataset when the feature is absent, otherwise grow it and
write the new tail.  A payload or existing entry of the wrong shape is a
`TypeError` (numpy/h5py would fail on it). -/
def store_scalar (g : List (String × H5Entry)) (name : String) (d : DataVal) :
    Except PyErr (List (String × H5Entry)) :=
  let data : Except PyErr (List Int) :=
    match d with
    | .sc1 x => .ok [x]
    | .sc xs => .ok xs
    | _ => .error (.typeError "scalar feature data expected")
  match data with
  | .error e => .error e
  | .ok xs =>
    match assocGet g name with
    | none => .ok (g ++ [(name, .dset1 xs)])
    | some (.dset1 old) => .ok (assocSet g name (.dset1 (old ++ xs)))
    | some _ => .error (.typeError "existing entry is not a scalar dataset")

/-- `store_contour` (write_hdf5.py lines 20-38): wrap a single contour,
then append ordinal-keyed 2-D datasets to the `contour` sub-group,
starting at the current number of keys. -/
def store_contour (g : List (String × H5Entry)) (d : DataVal) :
    Except PyErr (List (String × H5Entry)) :=
  let data : Except PyErr (List (List (List Int))) :=
    match d with
    | .co1 c => .ok [c]
    | .co cs => .ok cs
    | _ => .error (.typeError "contour data expected")
  match data with
  | .error e => .error e
  | .ok cs =>
    match assocGet g "contour" with
    | none =>
      .ok (g ++ [("contour",
        .grp (cs.enum.map (fun p => (natStr p.1, .dset2 p.2))))])
    | some (.grp sub) =>
      .ok (assocSet g "contour"
        (.grp (sub ++ cs.enum.map (fun p => (natStr (sub.length + p.1), .dset2 p.2)))))
    | some _ => .error (.typeError "existing contour entry is not a group")

/-- `store_image` (write_hdf5.py lines 41-63): wrap a single 2-D frame,
create the resizable 3-D dataset or append along the frame axis. -/
def store_image (g : List (String × H5Entry)) (d : DataVal) :
    Except PyErr (List (String × H5Entry)) :=
  let data : Except PyErr (List (List (List Int))) :=
    match d with
    | .im2 im => .ok [im]
    | .im ims => .ok ims
    | _ => .error (.typeError "image data expected")
  match data with
  | .error e => .error e
  | .ok ims =>
    match assocGet g "image" with
    | none => .ok (g ++ [("image", .dset3 ims)])
    | some (.dset3 old) => .ok (assocSet g "image" (.dset3 (old ++ ims)))
    | some _ => .error (.typeError "existing image entry is not a 3d dataset")

/-- The smaller of two strings in Python's lexicographic order, for
`sorted(list(data.keys()))[0]`. -/
def minStr (a b : String) : String := if a ≤ b then a else b

/-- `data[dd].reshape(1, -1)`: one event becomes one row; a 2-D array is
flattened into a single row. -/
def traceReshape : TraceArr → TraceArr
  | .t1 xs => .t2 [xs]
  | .t2 m => .t2 [m.flatten]

/-- `store_trace` (write_hdf5.py lines 83-108): when the first (sorted)
channel is 1-D, every channel is reshaped to one row; each channel is
created as a resizable 2-D dataset under the `trace` group or grown by
the incoming rows. -/
def store_trace (g : List (String × H5Entry)) (d : DataVal) :
    Except PyErr (List (String × H5Entry)) :=
  match d with
  | .tr t =>
    match t with
    | [] => .error (.typeError "empty trace dict")
    | t0 :: trest =>
      let firstkey := (trest.map Prod.fst).foldl minStr t0.1
      let t : List (String × TraceArr) :=
        match assocGet (t0 :: trest) firstkey with
        | some (.t1 _) =>
          (t0 :: trest).map (fun p : String × TraceArr => (p.1, traceReshape p.2))
        | _ => t0 :: trest
      let grp0 : List (String × H5Entry) :=
        match assocGet g "trace" with
        | some (.grp sub) => sub
        | _ => []
      let grp1 := t.foldl
        (fun (sub : List (String × H5Entry)) (p : String × TraceArr) =>
          match p.2 with
          | .t1 _ => sub
          | .t2 rows =>
            match assocGet sub p.1 with
            | none => sub ++ [(p.1, .dset2 rows)]
            | some (.dset2 old) => assocSet sub p.1 (.dset2 (old ++ rows))
            | some _ => sub)
        grp0
      .ok (assocSet g "trace" (.grp grp1))
  | _ => .error (.typeError "trace data expected")

/-- The metadata validation loop of `write` (write_hdf5.py lines 188-197):
the first offending section or key, in iteration order. -/
def checkMeta (dfn : Dfn) : List (String × List (String × AttrVal)) → Option PyErr
  | [] => none
  | (sec, entries) :: rest =>
    if !((dfn.config_keys.map Prod.fst).contains sec) then
      some (.valueError ("Meta data section not defined in dclab: " ++ sec))
    else
      match entries.find? (fun e => !(((assocGet dfn.config_keys sec).getD []).contains e.1)) with
      | some e => some (.valueError ("Meta key not defined in dclab: " ++ sec ++ ":" ++ e.1))
      | none => checkMeta dfn rest

/-- The channels of a trace payload, as iterated by
`for sk in data["trace"]`; iterating a non-dict payload yields items that
are not channel names (modelled as a single unknown key). -/
def traceBadKey (dfn : Dfn) : DataVal → Option String
  | .tr t => (t.find? (fun p => !(dfn.FLUOR_TRACES.contains p.1))).map Prod.fst
  | _ => some "non-trace data under the trace key"

/-- The feature-key validation loop of `write` (write_hdf5.py lines
199-211), building `feat_keys` and validating trace channel names. -/
def checkFeat (dfn : Dfn) : List (String × DataVal) → Except PyErr (List String)
  | [] => .ok []
  | (kk, dv) :: rest =>
    if (dfn.feature_names ++ ["contour", "image", "trace"]).contains kk then
      if kk == "trace" then
        match traceBadKey dfn dv with
        | some sk => .error (.valueError ("Unknown trace key: " ++ sk))
        | none => (checkFeat dfn rest).map (fun ks => kk :: ks)
      else (checkFeat dfn rest).map (fun ks => kk :: ks)
    else .error (.valueError ("Unknown key " ++ kk))

/-- The feature-storing loop of `write` (write_hdf5.py lines 244-258): on a
handler error the events group built so far is kept, matching Python
semantics where the exception leaves earlier writes in place. -/
def storeAll (dfn : Dfn) (data : List (String × DataVal)) :
    List String → List (String × H5Entry) →
      List (String × H5Entry) × Option PyErr
  | [], evs => (evs, none)
  | fk :: rest, evs =>
    let dv := (assocGet data fk).getD (.sc [])
    let r :=
      if dfn.feature_names.contains fk then store_scalar evs fk dv
      else if fk == "contour" then store_contour evs dv
      else if fk == "image" then store_image evs dv
      else if fk == "trace" then store_trace evs dv
      else .ok evs
    match r with
    | .error e => (evs, some e)
    | .ok evs => storeAll dfn data rest evs

/-- The log-writing loop of `write` (write_hdf5.py lines 269-291). -/
def storeLogs (logs : List (String × LogVal)) (lg : List (String × H5Entry)) :
    List (String × H5Entry) :=
  logs.foldl
    (fun (lg : List (String × H5Entry)) (p : String × LogVal) =>
      let ldata := match p.2 with | .one s => [s] | .many ls => ls
      match assocGet lg p.1 with
      | none => lg ++ [(p.1, .dsetS ldata)]
      | some (.dsetS old) => assocSet lg p.1 (.dsetS (old ++ ldata))
      | some _ => lg)
    lg

/-- The body of `write` after the target container has been opened
(write_hdf5.py lines 224-291): metadata attributes, version stamp, events
group with replace-deletions and feature stores, logs group with
replace-deletions and log writes.  Returns the file state at the end or
at the raising point. -/
def writeBody (dfn : Dfn) (f0 : H5File) (data : List (String × DataVal))
    (meta : List (String × List (String × AttrVal)))
    (logs : List (String × LogVal)) (mode : String) (featKeys : List String) :
    H5File × Option PyErr :=
  let attrs := meta.foldl
    (fun (a : List (String × AttrVal)) (sec : String × List (String × AttrVal)) =>
      sec.2.foldl
        (fun (a : List (String × AttrVal)) (kv : String × AttrVal) =>
          assocSet a (sec.1 ++ ":" ++ kv.1) (dfn.config_types sec.1 kv.1 kv.2))
        a)
    f0.attrs
  let attrs := assocSet attrs "setup:software version" (.aS software_version_stamp)
  let root := f0.root
  let root := if (assocGet root "events").isNone then root ++ [("events", .grp [])] else root
  let evs : List (String × H5Entry) :=
    match assocGet root "events" with
    | some (.grp sub) => sub
    | _ => []
  let evs := if mode == "replace" then featKeys.foldl assocDel evs else evs
  match storeAll dfn data featKeys evs with
  | (evs, some e) => (⟨attrs, assocSet root "events" (.grp evs)⟩, some e)
  | (evs, none) =>
    let root := assocSet root "events" (.grp evs)
    let root := if (assocGet root "logs").isNone then root ++ [("logs", .grp [])] else root
    let lg : List (String × H5Entry) :=
      match assocGet root "logs" with
      | some (.grp sub) => sub
      | _ => []
    let lg := if mode == "replace" then (logs.map Prod.fst).foldl assocDel lg else lg
    let lg := storeLogs logs lg
    (⟨attrs, assocSet root "logs" (.grp lg)⟩, none)

/-- `write` (write_hdf5.py lines 111-297) on a path target.  The
`h5py.File`-object branch of the source (line 215) is not taken for a
path; the `data` dict-likeness check (lines 180-185) is satisfied by the
model's input type.  Returns the file system after the call together with
the outcome: the opened file for a successful `append`, `none` for a
successful `replace`/`reset` (the handle is closed), or the raised
exception, with any partial writes already committed. -/
def write (dfn : Dfn) (fs : FS) (path : String) (data : List (String × DataVal))
    (meta : List (String × List (String × AttrVal)))
    (logs : List (String × LogVal)) (mode : String) :
    FS × Except PyErr (Option H5File) :=
  if !(["append", "replace", "reset"].contains mode) then
    (fs, .error (.valueError "mode must be one of [append, replace, reset]"))
  else
    match checkMeta dfn meta with
    | some e => (fs, .error e)
    | none =>
      match checkFeat dfn data with
      | .error e => (fs, .error e)
      | .ok featKeys =>
        let f0 := if mode == "reset" then ⟨[], []⟩
          else (assocGet fs.files path).getD ⟨[], []⟩
        match writeBody dfn f0 data meta logs mode featKeys with
        | (f, some e) => (⟨assocSet fs.files path f⟩, .error e)
        | (f, none) =>
          (⟨assocSet fs.files path f⟩,
           if mode == "append" then .ok (some f) else .ok none)

theorem checkMeta_some_of_bad (dfn : Dfn) :
    ∀ (meta : List (String × List (String × AttrVal))) (sec : String)
      (entries : List (String × AttrVal)),
      (sec, entries) ∈ meta →
      (dfn.config_keys.map Prod.fst).contains sec = false →
      ∃ e, checkMeta dfn meta = some e
  | [], sec, entries, hmem, _ => absurd hmem (List.not_mem_nil _)
  | (s0, e0) :: rest, sec, entries, hmem, hbad => by
    unfold checkMeta
    by_cases h0 : (dfn.config_keys.map Prod.fst).contains s0
    · rw [if_neg (by rw [h0]; decide)]
      rcases hfind : e0.find? (fun e => !(((assocGet dfn.config_keys s0).getD []).contains e.1))
        with _ | e
      · rw [hfind]
        rcases List.mem_cons.1 hmem with hmem | hmem
        · exfalso
          rw [Prod.mk.injEq] at hmem
          rw [hmem.1] at hbad
          rw [h0] at hbad
          exact Bool.noConfusion hbad
        · exact checkMeta_some_of_bad dfn rest sec entries hmem hbad
      · rw [hfind]
        exact ⟨_, rfl⟩
    · rw [if_pos (by rw [Bool.eq_false_iff.mpr h0]; rfl)]
      exact ⟨_, rfl⟩

theorem assocGet_del_self {α : Type} (l : List (String × α)) (k : String) :
    assocGet (assocDel l k) k = none := by
  induction l with
  | nil => rfl
  | cons p r ih =>
    obtain ⟨pk, pv⟩ := p
    by_cases hp : pk = k
    · simp only [assocDel, if_pos hp]
      exact ih
    · simp only [assocDel, if_neg hp, assocGet, if_neg hp]
      exact ih

theorem assocGet_del_ne {α : Type} (l : List (String × α)) (k k' : String)
    (h : k' ≠ k) : assocGet (assocDel l k) k' = assocGet l k' := by
  induction l with
  | nil => rfl
  | cons p r ih =>
    obtain ⟨pk, pv⟩ := p
    by_cases hp : pk = k
    · have hne : ¬pk = k' := fun he => h (he.symm.trans hp)
      simp only [assocDel, if_pos hp, assocGet, if_neg hne]
      exact ih
    · simp only [assocDel, if_neg hp, assocGet]
      by_cases hp' : pk = k'
      · rw [if_pos hp', if_pos hp']
      · rw [if_neg hp', if_neg hp']
        exact ih

theorem assocGet_append_tail_self {α : Type} (l : List (String × α)) (k : String) (v : α)
    (h : assocGet l k = none) : assocGet (l ++ [(k, v)]) k = some v := by
  induction l with
  | nil => simp [assocGet]
  | cons p r ih =>
    obtain ⟨pk, pv⟩ := p
    simp only [assocGet] at h
    by_cases hp : pk = k
    · rw [if_pos hp] at h
      exact Option.noConfusion h
    · rw [if_neg hp] at h
      simp only [List.cons_append, assocGet, if_neg hp]
      exact ih h

theorem assocGet_append_tail_ne {α : Type} (l : List (String × α)) (k k' : String) (v : α)
    (h : k' ≠ k) : assocGet (l ++ [(k, v)]) k' = assocGet l k' := by
  induction l with
  | nil =>
    have hne : ¬k = k' := fun he => h he.symm
    simp [assocGet, hne]
  | cons p r ih =>
    obtain ⟨pk, pv⟩ := p
    simp only [List.cons_append, assocGet]
    by_cases hp : pk = k'
    · rw [if_pos hp, if_pos hp]
    · rw [if_neg hp, if_neg hp]
      exact ih

theorem contains_eq_true_of_mem {l : List String} {a : String} (h : a ∈ l) :
    l.contains a = true :=
  List.elem_eq_true_of_mem h

theorem checkFeat_single (dfn : Dfn) (feat : String) (dv : DataVal)
    (hfeat : feat ∈ dfn.feature_names) (hnt : feat ≠ "trace") :
    checkFeat dfn [(feat, dv)] = .ok [feat] := by
  have hc : (dfn.feature_names ++ ["contour", "image", "trace"]).contains feat = true :=
    contains_eq_true_of_mem (List.mem_append.2 (Or.inl hfeat))
  have hb : (feat == "trace") = false := beq_eq_false_iff_ne.2 hnt
  unfold checkFeat
  rw [if_pos (by rw [hc]), if_neg (by rw [hb]; exact Bool.false_ne_true)]
  rfl

theorem writeBody_fresh_scalar (dfn : Dfn) (feat : String) (xs : List Int)
    (hc : dfn.feature_names.contains feat = true) :
    writeBody dfn ⟨[], []⟩ [(feat, .sc xs)] [] [] "append" [feat] =
      (⟨[("setup:software version", .aS software_version_stamp)],
        [("events", .grp [(feat, .dset1 xs)]), ("logs", .grp [])]⟩, none) := by
  have hm : feat ∈ dfn.feature_names := List.mem_of_elem_eq_true hc
  simp [writeBody, storeAll, store_scalar, storeLogs, assocGet, assocSet, hc, hm]

theorem writeBody_append_scalar (dfn : Dfn) (feat : String) (xs ys : List Int)
    (hc : dfn.feature_names.contains feat = true) :
    writeBody dfn ⟨[("setup:software version", .aS software_version_stamp)],
        [("events", .grp [(feat, .dset1 xs)]), ("logs", .grp [])]⟩
      [(feat, .sc ys)] [] [] "append" [feat] =
      (⟨[("setup:software version", .aS software_version_stamp)],
        [("events", .grp [(feat, .dset1 (xs ++ ys))]), ("logs", .grp [])]⟩, none) := by
  have hm : feat ∈ dfn.feature_names := List.mem_of_elem_eq_true hc
  simp [writeBody, storeAll, store_scalar, storeLogs, assocGet, assocSet, hc, hm]

theorem writeBody_replace_scalar (dfn : Dfn) (attrs0 : List (String × AttrVal))
    (root0 evs L : List (String × H5Entry)) (xs : List Int)
    (hevs : assocGet root0 "events" = some (.grp evs))
    (hlogs : assocGet root0 "logs" = some (.grp L))
    (harea : dfn.feature_names.contains "area" = true) :
    writeBody dfn ⟨attrs0, root0⟩ [("area", .sc xs)] [] [] "replace" ["area"] =
      (⟨assocSet attrs0 "setup:software version" (.aS software_version_stamp),
        assocSet (assocSet root0 "events"
          (.grp (assocDel evs "area" ++ [("area", .dset1 xs)]))) "logs" (.grp L)⟩,
       none) := by
  have hm : "area" ∈ dfn.feature_names := List.mem_of_elem_eq_true harea
  have hdel : assocGet (assocDel evs "area") "area" = none := assocGet_del_self evs "area"
  have hlogs2 : assocGet (assocSet root0 "events"
      (H5Entry.grp (assocDel evs "area" ++ [("area", H5Entry.dset1 xs)]))) "logs" =
      some (.grp L) := by
    rw [assocGet_set_ne root0 "events" "logs" _ (by decide)]
    exact hlogs
  simp [writeBody, storeAll, store_scalar, storeLogs, assocGet, hevs, hlogs, hlogs2,
        hdel, hm]

/-! ## Claim C2 -/

/-- C2: any `write` call whose `meta` contains a section name outside the
known configuration vocabulary fails before anything is opened or
created: the call returns an error and the file system — whether or not
the target path exists — is exactly the input file system. -/
theorem C2_writer_meta_validation (dfn : Dfn) (fs : FS) (path : String)
    (data : List (String × DataVal))
    (meta : List (String × List (String × AttrVal)))
    (logs : List (String × LogVal)) (mode : String)
    (sec : String) (entries : List (String × AttrVal))
    (hmem : (sec, entries) ∈ meta)
    (hbad : (dfn.config_keys.map Prod.fst).contains sec = false) :
    (write dfn fs path data meta logs mode).1 = fs ∧
    ∃ e, (write dfn fs path data meta logs mode).2 = .error e := by
  unfold write
  by_cases hm : (["append", "replace", "reset"] : List String).contains mode
  · rw [if_neg (by rw [hm]; decide)]
    obtain ⟨e, he⟩ := checkMeta_some_of_bad dfn meta sec entries hmem hbad
    rw [he]
    exact ⟨rfl, e, rfl⟩
  · rw [if_pos (by rw [Bool.eq_false_iff.mpr hm]; rfl)]
    exact ⟨rfl, _, rfl⟩

/-- C2 (witness): a concrete write with an unknown meta section `"bogus"`
into an empty file system errors and leaves the file system empty. -/
theorem C2_writer_meta_validation_witness :
    (write ⟨["area"], [("experiment", ["date"])], fun _ _ v => v, ["fl1_raw"]⟩
        ⟨[]⟩ "out.rtdc" [] [("bogus", [])] [] "reset").1 = ⟨[]⟩ ∧
    ∃ e, (write ⟨["area"], [("experiment", ["date"])], fun _ _ v => v, ["fl1_raw"]⟩
        ⟨[]⟩ "out.rtdc" [] [("bogus", [])] [] "reset").2 = .error e :=
  C2_writer_meta_validation _ ⟨[]⟩ "out.rtdc" [] [("bogus", [])] [] "reset"
    "bogus" [] (List.mem_singleton.2 rfl) (by decide)

/-! ## Claim C5 -/

/-- C5: starting from a file system in which the target path does not
exist, writing a length-5 scalar feature array in `append` mode and then
writing another length-5 array for the same feature in `append` mode
yields a container whose dataset for that feature is the length-10
concatenation: the first 5 stored values are the first write's values
unchanged and the last 5 are the second write's values. -/
theorem C5_writer_append_semantics (dfn : Dfn) (fs0 : FS) (path feat : String)
    (xs ys : List Int)
    (hfeat : feat ∈ dfn.feature_names) (hnt : feat ≠ "trace")
    (hfresh : assocGet fs0.files path = none)
    (hx : xs.length = 5) (hy : ys.length = 5) :
    (write dfn (write dfn fs0 path [(feat, .sc xs)] [] [] "append").1
        path [(feat, .sc ys)] [] [] "append").2 =
      .ok (some ⟨[("setup:software version", .aS software_version_stamp)],
        [("events", .grp [(feat, .dset1 (xs ++ ys))]), ("logs", .grp [])]⟩) ∧
    (xs ++ ys).length = 10 ∧ (xs ++ ys).take 5 = xs ∧ (xs ++ ys).drop 5 = ys := by
  have hc : dfn.feature_names.contains feat = true := contains_eq_true_of_mem hfeat
  have hxs : write dfn fs0 path [(feat, DataVal.sc xs)] [] [] "append" =
      (⟨assocSet fs0.files path
          ⟨[("setup:software version", .aS software_version_stamp)],
           [("events", .grp [(feat, .dset1 xs)]), ("logs", .grp [])]⟩⟩,
       .ok (some ⟨[("setup:software version", .aS software_version_stamp)],
           [("events", .grp [(feat, .dset1 xs)]), ("logs", .grp [])]⟩)) := by
    simp [write, checkMeta, checkFeat_single dfn feat _ hfeat hnt, hfresh,
          writeBody_fresh_scalar dfn feat xs hc]
  have h2 : assocGet (assocSet fs0.files path
      (⟨[("setup:software version", .aS software_version_stamp)],
        [("events", .grp [(feat, .dset1 xs)]), ("logs", .grp [])]⟩ : H5File)) path =
      some ⟨[("setup:software version", .aS software_version_stamp)],
        [("events", .grp [(feat, .dset1 xs)]), ("logs", .grp [])]⟩ :=
    assocGet_set_self _ _ _
  have hys : write dfn ⟨assocSet fs0.files path
        ⟨[("setup:software version", .aS software_version_stamp)],
         [("events", .grp [(feat, .dset1 xs)]), ("logs", .grp [])]⟩⟩
      path [(feat, DataVal.sc ys)] [] [] "append" =
      (⟨assocSet (assocSet fs0.files path
          ⟨[("setup:software version", .aS software_version_stamp)],
           [("events", .grp [(feat, .dset1 xs)]), ("logs", .grp [])]⟩) path
          ⟨[("setup:software version", .aS software_version_stamp)],
           [("events", .grp [(feat, .dset1 (xs ++ ys))]), ("logs", .grp [])]⟩⟩,
       .ok (some ⟨[("setup:software version", .aS software_version_stamp)],
           [("events", .grp [(feat, .dset1 (xs ++ ys))]), ("logs", .grp [])]⟩)) := by
    simp [write, checkMeta, checkFeat_single dfn feat _ hfeat hnt, h2,
          writeBody_append_scalar dfn feat xs ys hc]
  rw [hxs]
  refine ⟨?_, ?_, ?_, ?_⟩
  · rw [hys]
  · simp [hx, hy]
  · rw [← hx, List.take_left]
  · rw [← hx, List.drop_left]

/-- C5 (witness): two concrete length-5 `append` writes of `"area"` into
a fresh path end with the dataset `[1,...,10]`, whose first five entries
are the first write and last five the second. -/
theorem C5_writer_append_semantics_witness :
    (write ⟨["area"], [("experiment", ["date"])], fun _ _ v => v, ["fl1_raw"]⟩
        (write ⟨["area"], [("experiment", ["date"])], fun _ _ v => v, ["fl1_raw"]⟩
          ⟨[]⟩ "data.rtdc" [("area", .sc [1, 2, 3, 4, 5])] [] [] "append").1
        "data.rtdc" [("area", .sc [6, 7, 8, 9, 10])] [] [] "append").2 =
      .ok (some ⟨[("setup:software version", .aS software_version_stamp)],
        [("events", .grp [("area", .dset1 ([1, 2, 3, 4, 5] ++ [6, 7, 8, 9, 10]))]),
         ("logs", .grp [])]⟩) ∧
    ([1, 2, 3, 4, 5] ++ [6, 7, 8, 9, 10] : List Int).length = 10 ∧
    ([1, 2, 3, 4, 5] ++ [6, 7, 8, 9, 10] : List Int).take 5 = [1, 2, 3, 4, 5] ∧
    ([1, 2, 3, 4, 5] ++ [6, 7, 8, 9, 10] : List Int).drop 5 = [6, 7, 8, 9, 10] :=
  C5_writer_append_semantics _ ⟨[]⟩ "data.rtdc" "area" [1, 2, 3, 4, 5] [6, 7, 8, 9, 10]
    (by decide) (by decide) rfl (by decide) (by decide)

/-! ## Claim C6 -/

/-- C6: calling the writer in `replace` mode with only `"area"` in `data`
on a container already holding `"area"` and `"deform"` succeeds with no
returned handle, deletes and rewrites only the `"area"` dataset (it
becomes exactly the supplied values), leaves every other events entry —
in particular `"deform"`, which remains present — at its previous value,
keeps the logs group as it was, and leaves every root entry other than
`"events"` and `"logs"` untouched. -/
theorem C6_writer_replace_frame (dfn : Dfn) (fs0 : FS) (path : String)
    (attrs0 : List (String × AttrVal)) (root0 evs L : List (String × H5Entry))
    (xs : List Int)
    (hfile : assocGet fs0.files path = some ⟨attrs0, root0⟩)
    (hevs : assocGet root0 "events" = some (.grp evs))
    (hlogs : assocGet root0 "logs" = some (.grp L))
    (harea : "area" ∈ dfn.feature_names)
    (hdeform : (assocGet evs "deform").isSome = true) :
    (write dfn fs0 path [("area", .sc xs)] [] [] "replace").2 = .ok none ∧
    (write dfn fs0 path [("area", .sc xs)] [] [] "replace").1.files =
      assocSet fs0.files path
        ⟨assocSet attrs0 "setup:software version" (.aS software_version_stamp),
         assocSet (assocSet root0 "events"
           (.grp (assocDel evs "area" ++ [("area", .dset1 xs)]))) "logs" (.grp L)⟩ ∧
    assocGet (assocDel evs "area" ++ [("area", H5Entry.dset1 xs)]) "area" =
      some (.dset1 xs) ∧
    (∀ k, k ≠ "area" →
      assocGet (assocDel evs "area" ++ [("area", H5Entry.dset1 xs)]) k = assocGet evs k) ∧
    (assocGet (assocDel evs "area" ++ [("area", H5Entry.dset1 xs)]) "deform").isSome =
      true ∧
    (∀ rk, rk ≠ "events" → rk ≠ "logs" →
      assocGet (assocSet (assocSet root0 "events"
        (.grp (assocDel evs "area" ++ [("area", .dset1 xs)]))) "logs" (.grp L)) rk =
        assocGet root0 rk) := by
  have hc : dfn.feature_names.contains "area" = true := contains_eq_true_of_mem harea
  have hw : write dfn fs0 path [("area", DataVal.sc xs)] [] [] "replace" =
      (⟨assocSet fs0.files path
          ⟨assocSet attrs0 "setup:software version" (.aS software_version_stamp),
           assocSet (assocSet root0 "events"
             (.grp (assocDel evs "area" ++ [("area", .dset1 xs)]))) "logs" (.grp L)⟩⟩,
       .ok none) := by
    simp [write, checkMeta, checkFeat_single dfn "area" _ harea (by decide), hfile,
          writeBody_replace_scalar dfn attrs0 root0 evs L xs hevs hlogs hc]
  have hother : ∀ k, k ≠ "area" →
      assocGet (assocDel evs "area" ++ [("area", H5Entry.dset1 xs)]) k = assocGet evs k := by
    intro k hk
    rw [assocGet_append_tail_ne _ _ _ _ hk]
    exact assocGet_del_ne evs "area" k hk
  refine ⟨?_, ?_, ?_, hother, ?_, ?_⟩
  · rw [hw]
  · rw [hw]
  · exact assocGet_append_tail_self _ _ _ (assocGet_del_self evs "area")
  · rw [hother "deform" (by decide)]
    exact hdeform
  · intro rk hrk1 hrk2
    rw [assocGet_set_ne _ _ _ _ hrk2, assocGet_set_ne _ _ _ _ hrk1]

/-- C6 (witness): on a concrete container holding `"area"`, `"deform"`,
a log and an extra root dataset, a `replace` write of `"area"` rewrites
exactly that dataset; the `"deform"` entry, the `"extra"` root entry and
the logs keep their values. -/
theorem C6_writer_replace_frame_witness :
    (write ⟨["area", "deform"], [("experiment", ["date"])], fun _ _ v => v, ["fl1_raw"]⟩
        ⟨[("d.rtdc", ⟨[("user:tag", .aS "t")],
          [("events", .grp [("area", .dset1 [7]), ("deform", .dset1 [8])]),
           ("logs", .grp [("hist", .dsetS ["l1"])]),
           ("extra", .dset1 [9])]⟩)]⟩
        "d.rtdc" [("area", .sc [5, 5])] [] [] "replace").2 = .ok none ∧
    (write ⟨["area", "deform"], [("experiment", ["date"])], fun _ _ v => v, ["fl1_raw"]⟩
        ⟨[("d.rtdc", ⟨[("user:tag", .aS "t")],
          [("events", .grp [("area", .dset1 [7]), ("deform", .dset1 [8])]),
           ("logs", .grp [("hist", .dsetS ["l1"])]),
           ("extra", .dset1 [9])]⟩)]⟩
        "d.rtdc" [("area", .sc [5, 5])] [] [] "replace").1.files =
      assocSet [("d.rtdc", ⟨[("user:tag", .aS "t")],
          [("events", .grp [("area", .dset1 [7]), ("deform", .dset1 [8])]),
           ("logs", .grp [("hist", .dsetS ["l1"])]),
           ("extra", .dset1 [9])]⟩)] "d.rtdc"
        ⟨assocSet [("user:tag", .aS "t")] "setup:software version"
            (.aS software_version_stamp),
         assocSet (assocSet
           [("events", .grp [("area", .dset1 [7]), ("deform", .dset1 [8])]),
            ("logs", .grp [("hist", .dsetS ["l1"])]),
            ("extra", .dset1 [9])] "events"
           (.grp (assocDel [("area", H5Entry.dset1 [7]), ("deform", H5Entry.dset1 [8])]
              "area" ++ [("area", .dset1 [5, 5])]))) "logs"
           (.grp [("hist", .dsetS ["l1"])])⟩ ∧
    assocGet (assocDel [("area", H5Entry.dset1 [7]), ("deform", H5Entry.dset1 [8])]
        "area" ++ [("area", H5Entry.dset1 [5, 5])]) "area" = some (.dset1 [5, 5]) ∧
    assocGet (assocDel [("area", H5Entry.dset1 [7]), ("deform", H5Entry.dset1 [8])]
        "area" ++ [("area", H5Entry.dset1 [5, 5])]) "deform" =
      assocGet [("area", H5Entry.dset1 [7]), ("deform", H5Entry.dset1 [8])] "deform" ∧
    (assocGet (assocDel [("area", H5Entry.dset1 [7]), ("deform", H5Entry.dset1 [8])]
        "area" ++ [("area", H5Entry.dset1 [5, 5])]) "deform").isSome = true ∧
    assocGet (assocSet (assocSet
        [("events", .grp [("area", .dset1 [7]), ("deform", .dset1 [8])]),
         ("logs", .grp [("hist", .dsetS ["l1"])]),
         ("extra", .dset1 [9])] "events"
        (.grp (assocDel [("area", H5Entry.dset1 [7]), ("deform", H5Entry.dset1 [8])]
           "area" ++ [("area", H5Entry.dset1 [5, 5])]))) "logs"
        (.grp [("hist", .dsetS ["l1"])])) "extra" =
      assocGet [("events", H5Entry.grp [("area", H5Entry.dset1 [7]),
          ("deform", H5Entry.dset1 [8])]),
        ("logs", H5Entry.grp [("hist", H5Entry.dsetS ["l1"])]),
        ("extra", H5Entry.dset1 [9])] "extra" := by
  have h := C6_writer_replace_frame
    ⟨["area", "deform"], [("experiment", ["date"])], fun _ _ v => v, ["fl1_raw"]⟩
    ⟨[("d.rtdc", ⟨[("user:tag", .aS "t")],
      [("events", .grp [("area", .dset1 [7]), ("deform", .dset1 [8])]),
       ("logs", .grp [("hist", .dsetS ["l1"])]),
       ("extra", .dset1 [9])]⟩)]⟩
    "d.rtdc" [("user:tag", .aS "t")]
    [("events", .grp [("area", .dset1 [7]), ("deform", .dset1 [8])]),
     ("logs", .grp [("hist", .dsetS ["l1"])]),
     ("extra", .dset1 [9])]
    [("area", .dset1 [7]), ("deform", .dset1 [8])]
    [("hist", .dsetS ["l1"])]
    [5, 5] rfl rfl rfl (by decide) (by decide)
  exact ⟨h.1, h.2.1, h.2.2.1, h.2.2.2.1 "deform" (by decide), h.2.2.2.2.1,
    h.2.2.2.2.2 "extra" (by decide) (by decide)⟩
